import Mathlib

/-!
Verification of the imagewty-tool sources (IMAGEWTY firmware container codec).

Bytes are natural numbers below 256 and byte sequences are lists; C unsigned
arithmetic is modelled with explicit reductions modulo 2^32 (`uint32_t`) and
2^64 (`uint64_t`).  Each definition is a shallow embedding of the function of
the same name in `src/`.
-/

namespace ImagewtyTool

def M32 : Nat := 4294967296

def M64 : Nat := 18446744073709551616

/-- Assemble a 32-bit little-endian word from four bytes, as the C expression
`b0 | (b1 << 8) | (b2 << 16) | (b3 << 24)` does for byte values. -/
def word_le (b0 b1 b2 b3 : Nat) : Nat :=
  b0 + b1 * 256 + b2 * 65536 + b3 * 16777216

/-- Serialize a `uint32_t` value to its four little-endian bytes (the layout
`memcpy` of a `uint32_t` produces on a little-endian machine, and the
`newbuf` construction in `check_vfiles_common`). -/
def u32le4 (n : Nat) : List Nat :=
  [n % 256, n / 256 % 256, n / 65536 % 256, n / 16777216 % 256]

theorem word_le_u32le4 (n : Nat) : word_le (n % 256) (n / 256 % 256)
    (n / 65536 % 256) (n / 16777216 % 256) = n % M32 := by
  unfold word_le M32
  omega

/- ------------------------------------------------------------------
Checksum Engine: `src/src/checksum.c`, `compute_checksum`.
The C function reads the file in 64 KiB chunks; inside each chunk it adds
all full 4-byte little-endian words into a `uint32_t` accumulator (wrapping
modulo 2^32 on every addition), then zero-extends a trailing group of 1-3
bytes into a final word.
------------------------------------------------------------------ -/

/-- Process one `fread` chunk of `compute_checksum`: the full-word loop
followed by the `rem` handling, accumulating into the wrapping `uint32_t`
`sum`. -/
def chunkSum : List Nat → Nat → Nat
  | b0 :: b1 :: b2 :: b3 :: rest, s => chunkSum rest ((s + word_le b0 b1 b2 b3) % M32)
  | [], s => s
  | [b0], s => (s + word_le b0 0 0 0) % M32
  | [b0, b1], s => (s + word_le b0 b1 0 0) % M32
  | [b0, b1, b2], s => (s + word_le b0 b1 b2 0) % M32

/-- The `while ((n = fread(...)) > 0)` loop of `compute_checksum`: each
iteration consumes up to 0x10000 bytes. -/
def csLoop (bytes : List Nat) (s : Nat) : Nat :=
  if h : bytes = [] then s
  else csLoop (bytes.drop 65536) (chunkSum (bytes.take 65536) s)
termination_by bytes.length
decreasing_by
  simp only [List.length_drop]
  have : bytes.length ≠ 0 := fun hl => h (List.eq_nil_of_length_eq_zero hl)
  omega

/-- `compute_checksum` from `checksum.c`, as a function of the file's byte
content (the file is assumed readable here; the unreadable-file sentinel is
modelled at the call sites that look files up in a directory).  Since
0x10000 is a multiple of 4, the chunked `fread` loop `csLoop` consumes the
byte stream word-aligned; `compute_checksum` is stated as the single pass
`chunkSum bytes 0` so that it is structurally recursive (kernel-evaluable),
and `claim_C4` proves it equal to the chunked loop `csLoop bytes 0`. -/
def compute_checksum (bytes : List Nat) : Nat := chunkSum bytes 0

/-- Specification-side word list: partition a byte sequence into 4-byte
little-endian words, zero-extending a trailing group of 1-3 bytes. -/
def leWords : List Nat → List Nat
  | [] => []
  | [b0] => [word_le b0 0 0 0]
  | [b0, b1] => [word_le b0 b1 0 0]
  | [b0, b1, b2] => [word_le b0 b1 b2 0]
  | b0 :: b1 :: b2 :: b3 :: rest => word_le b0 b1 b2 b3 :: leWords rest

theorem M32_pos : 0 < M32 := by decide

theorem chunkSum_eq (l : List Nat) : ∀ s : Nat, s < M32 →
    chunkSum l s = (s + (leWords l).sum) % M32 := by
  induction l using leWords.induct with
  | case1 =>
      intro s hs
      show s = (s + ([] : List Nat).sum) % M32
      rw [List.sum_nil, Nat.add_zero, Nat.mod_eq_of_lt hs]
  | case2 b0 =>
      intro s hs
      show (s + word_le b0 0 0 0) % M32 = (s + [word_le b0 0 0 0].sum) % M32
      rw [List.sum_cons, List.sum_nil, Nat.add_zero]
  | case3 b0 b1 =>
      intro s hs
      show (s + word_le b0 b1 0 0) % M32 = (s + [word_le b0 b1 0 0].sum) % M32
      rw [List.sum_cons, List.sum_nil, Nat.add_zero]
  | case4 b0 b1 b2 =>
      intro s hs
      show (s + word_le b0 b1 b2 0) % M32 = (s + [word_le b0 b1 b2 0].sum) % M32
      rw [List.sum_cons, List.sum_nil, Nat.add_zero]
  | case5 b0 b1 b2 b3 rest ih =>
      intro s hs
      show chunkSum rest ((s + word_le b0 b1 b2 b3) % M32) =
        (s + (word_le b0 b1 b2 b3 :: leWords rest).sum) % M32
      rw [ih _ (Nat.mod_lt _ M32_pos), List.sum_cons, Nat.mod_add_mod, Nat.add_assoc]

theorem chunkSum_lt (l : List Nat) (hne : l ≠ []) (s : Nat) :
    chunkSum l s < M32 := by
  match l with
  | [] => exact absurd rfl hne
  | [b0] => exact Nat.mod_lt _ M32_pos
  | [b0, b1] => exact Nat.mod_lt _ M32_pos
  | [b0, b1, b2] => exact Nat.mod_lt _ M32_pos
  | b0 :: b1 :: b2 :: b3 :: rest =>
      show chunkSum rest _ < M32
      match rest with
      | [] => exact Nat.mod_lt _ M32_pos
      | r :: rs => exact chunkSum_lt (r :: rs) (by simp) _

theorem leWords_append (l : List Nat) : ∀ r : List Nat, l.length % 4 = 0 →
    leWords (l ++ r) = leWords l ++ leWords r := by
  induction l using leWords.induct with
  | case1 => intro r _; rfl
  | case2 b0 =>
      intro r h
      exact absurd h (by rw [List.length_singleton]; omega)
  | case3 b0 b1 =>
      intro r h
      exact absurd h (by rw [List.length_cons, List.length_singleton]; omega)
  | case4 b0 b1 b2 =>
      intro r h
      exact absurd h
        (by rw [List.length_cons, List.length_cons, List.length_singleton]; omega)
  | case5 b0 b1 b2 b3 rest ih =>
      intro r h
      have hlen : rest.length % 4 = 0 := by
        rw [List.length_cons, List.length_cons, List.length_cons, List.length_cons] at h
        omega
      show word_le b0 b1 b2 b3 :: leWords (rest ++ r) =
        (word_le b0 b1 b2 b3 :: leWords rest) ++ leWords r
      rw [ih r hlen]
      rfl

theorem csLoop_nil (s : Nat) : csLoop [] s = s := by
  rw [csLoop]
  rfl

theorem csLoop_cons (b : List Nat) (hne : b ≠ []) (s : Nat) :
    csLoop b s = csLoop (b.drop 65536) (chunkSum (b.take 65536) s) := by
  rw [csLoop]
  simp only [hne, dite_false]

theorem csLoop_eq : ∀ (bytes : List Nat) (s : Nat), s < M32 →
    csLoop bytes s = (s + (leWords bytes).sum) % M32 := by
  intro bytes s
  induction bytes, s using csLoop.induct with
  | case1 s =>
      intro hs
      rw [csLoop_nil]
      show s = (s + ([] : List Nat).sum) % M32
      rw [List.sum_nil, Nat.add_zero, Nat.mod_eq_of_lt hs]
  | case2 b s hne ih =>
      intro hs
      rw [csLoop_cons b hne]
      by_cases hlen : b.length ≤ 65536
      · have hdrop : b.drop 65536 = [] := List.drop_eq_nil_of_le hlen
        have htake : b.take 65536 = b := List.take_of_length_le hlen
        rw [hdrop, htake, csLoop_nil]
        exact chunkSum_eq b s hs
      · push_neg at hlen
        have htlen : (b.take 65536).length = 65536 := by
          rw [List.length_take]
          omega
        have htne : b.take 65536 ≠ [] := by
          intro hnil
          rw [hnil, List.length_nil] at htlen
          exact absurd htlen (by omega)
        rw [ih (chunkSum_lt _ htne s)]
        rw [chunkSum_eq _ s hs]
        have hsplit : leWords b = leWords (b.take 65536) ++ leWords (b.drop 65536) := by
          conv_lhs => rw [← List.take_append_drop 65536 b]
          exact leWords_append _ _ (by rw [htlen])
        rw [hsplit, List.sum_append, Nat.mod_add_mod, Nat.add_assoc]

theorem compute_checksum_words (bytes : List Nat) :
    compute_checksum bytes = (leWords bytes).sum % M32 := by
  have h := chunkSum_eq bytes 0 M32_pos
  rw [Nat.zero_add] at h
  exact h

/-- Claim C4: `compute_checksum` returns the sum of the input's 4-byte
little-endian words (a trailing group of 1-3 bytes zero-extended to a full
word) reduced modulo 2^32, wrapping without any overflow error, and returns
0 on the empty byte sequence; the chunked 64 KiB `fread` loop computes the
same value. -/
theorem claim_C4 :
    (∀ bytes : List Nat, compute_checksum bytes = (leWords bytes).sum % M32) ∧
    (∀ bytes : List Nat, csLoop bytes 0 = compute_checksum bytes) ∧
    compute_checksum [] = 0 := by
  refine ⟨compute_checksum_words, fun bytes => ?_, rfl⟩
  rw [csLoop_eq bytes 0 M32_pos, Nat.zero_add, compute_checksum_words]

/- ------------------------------------------------------------------
Data model: `src/include/img_header.h`.
`ImageWTYHeader.magic` holds the raw bytes stored in the 9-byte C buffer up
to (excluding) its forced terminator; the numeric fields are `uint32_t`
values.  `ImageWTYFileHeader`'s string fields likewise hold the raw bytes of
the fixed-width C buffers up to the terminator.
------------------------------------------------------------------ -/

structure ImageWTYHeader where
  magic : List Nat
  header_version : Nat
  header_size : Nat
  base_ram : Nat
  format_version : Nat
  total_image_size : Nat
  header_size_aligned : Nat
  file_header_length : Nat
  usb_product_id : Nat
  usb_vendor_id : Nat
  hardware_id : Nat
  firmware_id : Nat
  unknown1 : Nat
  unknown2 : Nat
  num_files : Nat
  unknown3 : Nat
deriving DecidableEq

structure ImageWTYFileHeader where
  filename_length : Nat
  header_size : Nat
  maintype : List Nat
  subtype : List Nat
  unknown0 : Nat
  filename : List Nat
  stored_length : Nat
  pad1 : Nat
  original_length : Nat
  pad2 : Nat
  offset : Nat
deriving DecidableEq

/-- An all-zero header, as produced by `memset(hdr, 0, sizeof(*hdr))` in
`load_image_config` (the zeroed `char` buffers read back as empty
C strings). -/
def zeroHeader : ImageWTYHeader :=
  ⟨[], 0, 0, 0, 0, 0, 0, 0, 0, 0, 0, 0, 0, 0, 0, 0⟩

/-- An all-zero file entry, as produced by `calloc` in `load_image_config`. -/
def zeroFileHeader : ImageWTYFileHeader :=
  ⟨0, 0, [], [], 0, [], 0, 0, 0, 0, 0⟩

/- ------------------------------------------------------------------
Repack layout recomputation: `src/src/img_repack.c`.
------------------------------------------------------------------ -/

/-- `calculate_padding` from `img_repack.c` (uint64 arithmetic):
`stored_length = ((original_length + PADDING_ALIGNMENT - 1) / PADDING_ALIGNMENT)
* PADDING_ALIGNMENT` with `PADDING_ALIGNMENT = 16`, and the padding is the
difference (the C subtraction cannot wrap for any `ftell` file size, which
is what this function is applied to). -/
def calculate_padding (original_length : Nat) : Nat × Nat :=
  let stored := (original_length + 16 - 1) % M64 / 16 * 16
  (stored, stored - original_length)

/-- Mathematical rounding-to-16 used in the layout statements. -/
def storedOf (n : Nat) : Nat := (n + 15) / 16 * 16

/-- The per-entry body of the layout loop in `repack_image` (lines 127-156):
`fh->original_length`, `fh->stored_length` and `fh->offset` are `uint32_t`
fields assigned from the `uint64_t` size/offset values (truncating), and the
running `uint64_t` offset advances by the padded length.  `sizes` are the
`ftell` sizes of the payload files, in entry order. -/
def update_layout_go : List ImageWTYFileHeader → List Nat → Nat → List ImageWTYFileHeader
  | fh :: fhs, sz :: szs, off =>
      let ol := sz % M64
      let stored := (calculate_padding ol).1
      { fh with
          original_length := ol % M32
          stored_length := stored % M32
          offset := off % M32 } :: update_layout_go fhs szs ((off + stored) % M64)
  | _, _, _ => []

/-- The layout recomputation of `repack_image`: the running offset starts at
`IMG_HEADER_HEADER_SIZE + hdr.num_files * hdr.file_header_length`, where the
multiplication and addition happen in `uint32_t` before widening to the
`uint64_t` accumulator. -/
def repack_update_layout (h : ImageWTYHeader) (files : List ImageWTYFileHeader)
    (sizes : List Nat) : List ImageWTYFileHeader :=
  update_layout_go files sizes ((1024 + h.num_files * h.file_header_length % M32) % M32)

/-- Exact-arithmetic version of `update_layout_go`, used to reason about the
loop once all the modular reductions have been discharged. -/
def layoutZip : List ImageWTYFileHeader → List Nat → Nat → List ImageWTYFileHeader
  | fh :: fhs, sz :: szs, off =>
      { fh with
          original_length := sz
          stored_length := storedOf sz
          offset := off } :: layoutZip fhs szs (off + storedOf sz)
  | _, _, _ => []

theorem storedOf_le (n : Nat) : n ≤ storedOf n := by
  unfold storedOf
  omega

theorem storedOf_sub_lt (n : Nat) : storedOf n - n < 16 := by
  unfold storedOf
  omega

theorem storedOf_mod16 (n : Nat) : storedOf n % 16 = 0 := by
  unfold storedOf
  omega

theorem update_layout_go_eq (fhs : List ImageWTYFileHeader) :
    ∀ (szs : List Nat) (off : Nat),
      fhs.length = szs.length →
      off + (szs.map storedOf).sum < M32 →
      update_layout_go fhs szs off = layoutZip fhs szs off := by
  induction fhs with
  | nil =>
      intro szs off _ _
      cases szs with
      | nil => rfl
      | cons s ss => rfl
  | cons fh fhs ih =>
      intro szs off hlen hsm
      cases szs with
      | nil => exact absurd hlen (by simp)
      | cons sz szs =>
          have hsum : (List.map storedOf (sz :: szs)).sum =
              storedOf sz + (List.map storedOf szs).sum := by
            rw [List.map_cons, List.sum_cons]
          rw [hsum] at hsm
          have hMM : M32 + 16 < M64 := by decide
          have hle := storedOf_le sz
          have hsz32 : sz < M32 := by omega
          have hszM64 : sz % M64 = sz := Nat.mod_eq_of_lt (by omega)
          have hstored : (calculate_padding sz).1 = storedOf sz := by
            unfold calculate_padding storedOf
            have h15 : (sz + 16 - 1) % M64 = sz + 15 := by
              have he : sz + 16 - 1 = sz + 15 := by omega
              rw [he]
              exact Nat.mod_eq_of_lt (by omega)
            rw [h15]
          have hstored32 : storedOf sz % M32 = storedOf sz :=
            Nat.mod_eq_of_lt (by omega)
          have hoff32 : off % M32 = off := Nat.mod_eq_of_lt (by omega)
          have hoffadv : (off + storedOf sz) % M64 = off + storedOf sz :=
            Nat.mod_eq_of_lt (by omega)
          show ({ fh with
              original_length := sz % M64 % M32
              stored_length := (calculate_padding (sz % M64)).1 % M32
              offset := off % M32 } :: update_layout_go fhs szs
                ((off + (calculate_padding (sz % M64)).1) % M64)) = _
          rw [hszM64, hstored, hstored32, hoff32, hoffadv,
            Nat.mod_eq_of_lt hsz32]
          have htail : update_layout_go fhs szs (off + storedOf sz) =
              layoutZip fhs szs (off + storedOf sz) := by
            apply ih szs (off + storedOf sz) (by simpa using hlen)
            omega
          rw [htail]
          rfl

theorem layoutZip_cons (fh : ImageWTYFileHeader) (fhs : List ImageWTYFileHeader)
    (sz : Nat) (szs : List Nat) (off : Nat) :
    layoutZip (fh :: fhs) (sz :: szs) off =
      ({ fh with
          original_length := sz
          stored_length := storedOf sz
          offset := off }) :: layoutZip fhs szs (off + storedOf sz) := rfl

theorem layoutZip_length (fhs : List ImageWTYFileHeader) :
    ∀ (szs : List Nat) (off : Nat), fhs.length = szs.length →
      (layoutZip fhs szs off).length = fhs.length := by
  induction fhs with
  | nil =>
      intro szs off _
      cases szs with
      | nil => rfl
      | cons s ss => rfl
  | cons fh fhs ih =>
      intro szs off hlen
      cases szs with
      | nil => exact absurd hlen (by simp)
      | cons sz szs =>
          rw [layoutZip_cons, List.length_cons, List.length_cons,
            ih szs _ (by simpa using hlen)]

theorem layoutZip_getD_zero (fh : ImageWTYFileHeader) (fhs : List ImageWTYFileHeader)
    (sz : Nat) (szs : List Nat) (off : Nat) :
    ((layoutZip (fh :: fhs) (sz :: szs) off).getD 0 zeroFileHeader).offset = off := by
  rw [layoutZip_cons]
  rfl

theorem layoutZip_getD_offset (fhs : List ImageWTYFileHeader) :
    ∀ (szs : List Nat) (off i : Nat),
      fhs.length = szs.length →
      i + 1 < (layoutZip fhs szs off).length →
      ((layoutZip fhs szs off).getD (i + 1) zeroFileHeader).offset =
        ((layoutZip fhs szs off).getD i zeroFileHeader).offset +
          ((layoutZip fhs szs off).getD i zeroFileHeader).stored_length := by
  induction fhs with
  | nil =>
      intro szs off i hlen h1
      cases szs with
      | nil => exact absurd h1 (by simp [layoutZip])
      | cons s ss => exact absurd h1 (by simp [layoutZip])
  | cons fh fhs ih =>
      intro szs off i hlen h1
      cases szs with
      | nil => exact absurd hlen (by simp)
      | cons sz szs =>
          rw [layoutZip_cons] at h1 ⊢
          cases i with
          | zero =>
              rw [List.getD_cons_succ, List.getD_cons_zero]
              have h1' : 0 < (layoutZip fhs szs (off + storedOf sz)).length := by
                rw [List.length_cons] at h1
                omega
              cases fhs with
              | nil =>
                  cases szs with
                  | nil => exact absurd h1' (by simp [layoutZip])
                  | cons s2 ss2 => exact absurd h1' (by simp [layoutZip])
              | cons fh2 fhs2 =>
                  cases szs with
                  | nil =>
                      have hbad : fhs2.length + 1 = 0 := by simpa using hlen
                      exact absurd hbad (by omega)
                  | cons s2 ss2 =>
                      show ((layoutZip (fh2 :: fhs2) (s2 :: ss2)
                        (off + storedOf sz)).getD 0 zeroFileHeader).offset = _
                      rw [layoutZip_getD_zero]
          | succ j =>
              simp only [List.getD_cons_succ]
              apply ih szs (off + storedOf sz) j (by simpa using hlen)
              rw [List.length_cons] at h1
              omega

theorem layoutZip_mem (fhs : List ImageWTYFileHeader) :
    ∀ (szs : List Nat) (off : Nat), fhs.length = szs.length →
      ∀ e ∈ layoutZip fhs szs off,
        e.stored_length % 16 = 0 ∧ e.original_length ≤ e.stored_length ∧
          e.stored_length - e.original_length < 16 := by
  induction fhs with
  | nil =>
      intro szs off _ e he
      cases szs with
      | nil => exact absurd he (by simp [layoutZip])
      | cons s ss => exact absurd he (by simp [layoutZip])
  | cons fh fhs ih =>
      intro szs off hlen e he
      cases szs with
      | nil => exact absurd hlen (by simp)
      | cons sz szs =>
          rw [layoutZip_cons, List.mem_cons] at he
          cases he with
          | inl heq =>
              subst heq
              exact ⟨storedOf_mod16 sz, storedOf_le sz, storedOf_sub_lt sz⟩
          | inr htail => exact ih szs _ (by simpa using hlen) e htail

/-- Claim C2: after `repack_image` recomputes the layout from a manifest with
`entryCount` entries (provided the resulting layout fits the 32-bit
offset/length fields of the format), consecutive offsets differ by exactly
the stored length, the first offset is `1024 + entryCount * recordLength`,
every stored length is a multiple of 16, and it exceeds the original length
by less than 16. -/
theorem claim_C2 (h : ImageWTYHeader) (files : List ImageWTYFileHeader)
    (sizes : List Nat)
    (hn : h.num_files = files.length)
    (hl : files.length = sizes.length)
    (hsm : 1024 + h.num_files * h.file_header_length + (sizes.map storedOf).sum < M32) :
    (repack_update_layout h files sizes).length = files.length ∧
    (∀ i : Nat, i + 1 < (repack_update_layout h files sizes).length →
      ((repack_update_layout h files sizes).getD (i + 1) zeroFileHeader).offset =
        ((repack_update_layout h files sizes).getD i zeroFileHeader).offset +
          ((repack_update_layout h files sizes).getD i zeroFileHeader).stored_length) ∧
    (0 < (repack_update_layout h files sizes).length →
      ((repack_update_layout h files sizes).getD 0 zeroFileHeader).offset =
        1024 + files.length * h.file_header_length) ∧
    (∀ e ∈ repack_update_layout h files sizes,
      e.stored_length % 16 = 0 ∧ e.original_length ≤ e.stored_length ∧
        e.stored_length - e.original_length < 16) := by
  have hoff0 : (1024 + h.num_files * h.file_header_length % M32) % M32 =
      1024 + files.length * h.file_header_length := by
    rw [hn] at hsm ⊢
    rw [Nat.mod_eq_of_lt (show files.length * h.file_header_length < M32 by omega)]
    exact Nat.mod_eq_of_lt (by omega)
  have heq : repack_update_layout h files sizes =
      layoutZip files sizes (1024 + files.length * h.file_header_length) := by
    unfold repack_update_layout
    rw [hoff0]
    apply update_layout_go_eq files sizes _ hl
    rw [hn] at hsm
    omega
  rw [heq]
  refine ⟨layoutZip_length files sizes _ hl, ?_, ?_, layoutZip_mem files sizes _ hl⟩
  · intro i h1
    exact layoutZip_getD_offset files sizes _ i hl h1
  · intro h0
    cases files with
    | nil =>
        cases sizes with
        | nil => exact absurd h0 (by simp [layoutZip])
        | cons s ss => exact absurd h0 (by simp [layoutZip])
    | cons fh fhs =>
        cases sizes with
        | nil => exact absurd hl (by simp)
        | cons sz szs => exact layoutZip_getD_zero fh fhs sz szs _

/-- Witness for claim C2 at a concrete two-entry layout. -/
theorem claim_C2_witness :
    (repack_update_layout
      { zeroHeader with num_files := 2, file_header_length := 1024 }
      [zeroFileHeader, zeroFileHeader] [5, 32]).length = 2 := by
  have h := claim_C2
    { zeroHeader with num_files := 2, file_header_length := 1024 }
    [zeroFileHeader, zeroFileHeader] [5, 32] (by decide) (by decide) (by decide)
  exact h.1

/- ------------------------------------------------------------------
Binary Header Codec.
Reading: `src/src/img_header.c`.  Writing: the output side of
`repack_image` in `src/src/img_repack.c`.
A container is a byte list; file positions are absolute indices.  C's
`exit(EXIT_FAILURE)` on a short read (see `read_uint32_le`) is modelled by
the `CResult.exitFailure` outcome: a value that represents process
termination, not an error code returned to the caller.
------------------------------------------------------------------ -/

inductive CResult (α : Type) where
  | ok (a : α)
  | exitFailure
deriving DecidableEq

/-- `read_uint32_le` from `img_header.c` at an absolute position: reads four
bytes little-endian; a short read calls `exit(EXIT_FAILURE)`. -/
def read_uint32_at (x : List Nat) (pos : Nat) : CResult Nat :=
  match (x.drop pos).take 4 with
  | [b0, b1, b2, b3] => .ok (word_le b0 b1 b2 b3)
  | _ => .exitFailure

/-- A fixed-width `fread` at an absolute position (used for the magic,
maintype, subtype and filename fields); a short read exits. -/
def readBytesAt (x : List Nat) (pos n : Nat) : CResult (List Nat) :=
  let b := (x.drop pos).take n
  if b.length = n then .ok b else .exitFailure

/-- `read_image_header` from `img_header.c`: 8 magic bytes followed by
fifteen sequential little-endian `uint32_t` fields. -/
def read_image_header (x : List Nat) : CResult ImageWTYHeader :=
  if x.length < 8 then .exitFailure else
  match read_uint32_at x 8, read_uint32_at x 12, read_uint32_at x 16,
      read_uint32_at x 20, read_uint32_at x 24, read_uint32_at x 28,
      read_uint32_at x 32, read_uint32_at x 36, read_uint32_at x 40,
      read_uint32_at x 44, read_uint32_at x 48, read_uint32_at x 52,
      read_uint32_at x 56, read_uint32_at x 60, read_uint32_at x 64 with
  | .ok v1, .ok v2, .ok v3, .ok v4, .ok v5, .ok v6, .ok v7, .ok v8, .ok v9,
      .ok v10, .ok v11, .ok v12, .ok v13, .ok v14, .ok v15 =>
      .ok ⟨x.take 8, v1, v2, v3, v4, v5, v6, v7, v8, v9, v10, v11, v12, v13, v14, v15⟩
  | _, _, _, _, _, _, _, _, _, _, _, _, _, _, _ => .exitFailure

/-- `read_file_header` from `img_header.c`, reading one record that starts at
absolute position `start`.  The filename length is clamped to 256 before the
filename `fread`; after it the C code seeks past the remaining filename
padding, so the size fields sit at fixed offsets `start + 0x124 ..
start + 0x134`.  (The final seek over the record's remaining
`file_header_length` bytes only moves the cursor, which the positional
caller re-seeks anyway, so it needs no model.) -/
def read_file_header (x : List Nat) (start : Nat) : CResult ImageWTYFileHeader :=
  match read_uint32_at x start with
  | .exitFailure => .exitFailure
  | .ok fl =>
    let flc := min fl 256
    match read_uint32_at x (start + 4), readBytesAt x (start + 8) 8,
        readBytesAt x (start + 16) 16, read_uint32_at x (start + 32),
        readBytesAt x (start + 36) flc, read_uint32_at x (start + 292),
        read_uint32_at x (start + 296), read_uint32_at x (start + 300),
        read_uint32_at x (start + 304), read_uint32_at x (start + 308) with
    | .ok hs, .ok mt, .ok st, .ok u0, .ok fn, .ok sl, .ok p1, .ok ol,
        .ok p2, .ok off =>
        .ok ⟨flc, hs, mt, st, u0, fn, sl, p1, ol, p2, off⟩
    | _, _, _, _, _, _, _, _, _, _ => .exitFailure

/-- The loop of `read_all_file_headers`: record `i` is read after an absolute
seek to `FILE_HEADERS_START + i * file_header_length` (a `uint32_t`
expression). -/
def read_all_go (x : List Nat) (fhl : Nat) : Nat → Nat → CResult (List ImageWTYFileHeader)
  | 0, _ => .ok []
  | n + 1, i =>
    match read_file_header x ((1024 + i * fhl % M32) % M32) with
    | .exitFailure => .exitFailure
    | .ok fh =>
      match read_all_go x fhl n (i + 1) with
      | .exitFailure => .exitFailure
      | .ok rest => .ok (fh :: rest)

/-- `read_all_file_headers` from `img_header.c`. -/
def read_all_file_headers (x : List Nat) (num_files fhl : Nat) :
    CResult (List ImageWTYFileHeader) :=
  read_all_go x fhl num_files 0

/-- Truncate/pad a byte list to exactly `n` bytes with zeros, the effect of
`memcpy` out of a zero-initialized fixed-width C buffer holding the bytes
of `l`. -/
def padZero (n : Nat) (l : List Nat) : List Nat :=
  l.take n ++ List.replicate (n - l.length) 0

/-- The 1024-byte global header block written by `repack_image` (lines
94-114): magic bytes at 0x00, the fifteen `uint32_t` fields at 0x08..0x40,
the rest of the `memset`-zeroed buffer. -/
def globalHeaderBlock (h : ImageWTYHeader) : List Nat :=
  padZero 8 h.magic ++ u32le4 h.header_version ++ u32le4 h.header_size ++
    u32le4 h.base_ram ++ u32le4 h.format_version ++ u32le4 h.total_image_size ++
    u32le4 h.header_size_aligned ++ u32le4 h.file_header_length ++
    u32le4 h.usb_product_id ++ u32le4 h.usb_vendor_id ++ u32le4 h.hardware_id ++
    u32le4 h.firmware_id ++ u32le4 h.unknown1 ++ u32le4 h.unknown2 ++
    u32le4 h.num_files ++ u32le4 h.unknown3 ++ List.replicate 956 0

/-- One file-header record block written by `repack_image` (lines 161-205):
a `memset`-zeroed buffer of `file_header_length` bytes with the fields
copied at their fixed offsets; note `pad1` (0x128) and `pad2` (0x130) are
left as the `memset` zeros, not taken from the entry. -/
def fileHeaderBlock (fhl : Nat) (fh : ImageWTYFileHeader) : List Nat :=
  u32le4 fh.filename_length ++ u32le4 fh.header_size ++ padZero 8 fh.maintype ++
    padZero 16 fh.subtype ++ u32le4 fh.unknown0 ++ padZero 256 fh.filename ++
    u32le4 fh.stored_length ++ u32le4 0 ++ u32le4 fh.original_length ++
    u32le4 0 ++ u32le4 fh.offset ++ List.replicate (fhl - 312) 0

/-- A payload block as written by the data loop of `repack_image` (lines
210-267): the first `original_length` bytes of the payload file followed by
`stored_length - original_length` zero bytes. -/
def paddedPayload (fh : ImageWTYFileHeader) (p : List Nat) : List Nat :=
  p.take fh.original_length ++
    List.replicate (fh.stored_length - fh.original_length) 0

/-- The container bytes produced by the writing phase of `repack_image`
(everything after `load_image_config` succeeded): the global header block,
then one record block per entry at `1024 + i * file_header_length`, then
each payload block at the entry's recomputed `offset`.  The layout pass
(modelled by `repack_update_layout`) makes those seek targets tile the file
contiguously in exactly this concatenation order (`claim_C2`), with
`payloads` listing the current content of each referenced payload file. -/
def repack_write (h : ImageWTYHeader) (files : List ImageWTYFileHeader)
    (payloads : List (List Nat)) : List Nat :=
  globalHeaderBlock h ++
    ((repack_update_layout h files (payloads.map List.length)).map
      (fileHeaderBlock h.file_header_length)).flatten ++
    (List.zipWith paddedPayload
      (repack_update_layout h files (payloads.map List.length)) payloads).flatten

/-- The payload bytes of each entry, as the extraction loop of
`img_extract.c` reads them: `original_length` bytes at absolute `offset`. -/
def payloadsOf (x : List Nat) (files : List ImageWTYFileHeader) : List (List Nat) :=
  files.map fun fh => (x.drop fh.offset).take fh.original_length

/-- The claim C1 composition: decode the main header and all file entries
from a container and re-emit a container from them together with the
container's own payload bytes. -/
def roundtrip (x : List Nat) : Option (List Nat) :=
  match read_image_header x with
  | .exitFailure => none
  | .ok h =>
    match read_all_file_headers x h.num_files h.file_header_length with
    | .exitFailure => none
    | .ok files => some (repack_write h files (payloadsOf x files))

/- ------------------------------------------------------------------
Claim C7: process-exit behaviour of the header decoder.
------------------------------------------------------------------ -/

/-- Counterexample to claim C7: decoding the main header from an empty
source does not return an error value to the caller; the 8-byte magic
`fread` falls short and `read_image_header` reaches `exit(EXIT_FAILURE)`
(the `CResult.exitFailure` outcome, which models process termination). -/
theorem claim_C7_counterexample :
    read_image_header [] = CResult.exitFailure := by decide

/-- Claim C7 (amended): a short read while decoding the main header or a
file-header record is fatal to the process: `read_uint32_le` (and the
magic `fread` of `read_image_header`) call `exit(EXIT_FAILURE)` instead of
returning an error result to the caller. -/
theorem claim_C7 :
    (∀ (x : List Nat) (pos : Nat), x.length < pos + 4 →
      read_uint32_at x pos = CResult.exitFailure) ∧
    (∀ x : List Nat, x.length < 8 → read_image_header x = CResult.exitFailure) := by
  constructor
  · intro x pos h
    unfold read_uint32_at
    have hl : ((x.drop pos).take 4).length < 4 := by
      rw [List.length_take, List.length_drop]
      omega
    rcases hq : (x.drop pos).take 4 with _ | ⟨b0, _ | ⟨b1, _ | ⟨b2, _ | ⟨b3, t⟩⟩⟩⟩
    · rfl
    · rfl
    · rfl
    · rfl
    · rw [hq] at hl
      simp only [List.length_cons] at hl
      omega
  · intro x h
    unfold read_image_header
    rw [if_pos h]

/-- Witness for claim C7 at concrete short inputs. -/
theorem claim_C7_witness :
    read_uint32_at [] 0 = CResult.exitFailure ∧
    read_image_header [1, 2, 3] = CResult.exitFailure := by
  have h := claim_C7
  exact ⟨h.1 [] 0 (by decide), h.2 [1, 2, 3] (by decide)⟩

/- ------------------------------------------------------------------
Claim C5: the repack writer never reads the manifest's layout fields.
------------------------------------------------------------------ -/

/-- Erase the three layout fields that `repack_image` recomputes; two
entries with equal `nonLayout` projections differ at most in
`stored_length`, `original_length` and `offset`. -/
def nonLayout (fh : ImageWTYFileHeader) : ImageWTYFileHeader :=
  { fh with stored_length := 0, original_length := 0, offset := 0 }

/-- Erase every field the repack writer does not read: the three recomputed
layout fields and the two pad fields it always writes as zero. -/
def writerProj (fh : ImageWTYFileHeader) : ImageWTYFileHeader :=
  { fh with
      stored_length := 0
      original_length := 0
      offset := 0
      pad1 := 0
      pad2 := 0 }

theorem fileHeaderBlock_congr (fhl : Nat) (fh1 fh2 : ImageWTYFileHeader)
    (h : writerProj fh1 = writerProj fh2) (o s ofs : Nat) :
    fileHeaderBlock fhl
      { fh1 with original_length := o, stored_length := s, offset := ofs } =
    fileHeaderBlock fhl
      { fh2 with original_length := o, stored_length := s, offset := ofs } := by
  have h1 : fh1.filename_length = fh2.filename_length := by
    have hc := congrArg ImageWTYFileHeader.filename_length h
    exact hc
  have h2 : fh1.header_size = fh2.header_size := by
    have hc := congrArg ImageWTYFileHeader.header_size h
    exact hc
  have h3 : fh1.maintype = fh2.maintype := by
    have hc := congrArg ImageWTYFileHeader.maintype h
    exact hc
  have h4 : fh1.subtype = fh2.subtype := by
    have hc := congrArg ImageWTYFileHeader.subtype h
    exact hc
  have h5 : fh1.unknown0 = fh2.unknown0 := by
    have hc := congrArg ImageWTYFileHeader.unknown0 h
    exact hc
  have h6 : fh1.filename = fh2.filename := by
    have hc := congrArg ImageWTYFileHeader.filename h
    exact hc
  show u32le4 fh1.filename_length ++ u32le4 fh1.header_size ++
      padZero 8 fh1.maintype ++ padZero 16 fh1.subtype ++ u32le4 fh1.unknown0 ++
      padZero 256 fh1.filename ++ u32le4 s ++ u32le4 0 ++ u32le4 o ++
      u32le4 0 ++ u32le4 ofs ++ List.replicate (fhl - 312) 0 =
    u32le4 fh2.filename_length ++ u32le4 fh2.header_size ++
      padZero 8 fh2.maintype ++ padZero 16 fh2.subtype ++ u32le4 fh2.unknown0 ++
      padZero 256 fh2.filename ++ u32le4 s ++ u32le4 0 ++ u32le4 o ++
      u32le4 0 ++ u32le4 ofs ++ List.replicate (fhl - 312) 0
  rw [h1, h2, h3, h4, h5, h6]

theorem update_blocks_congr (fhl : Nat) (e1 : List ImageWTYFileHeader) :
    ∀ (e2 : List ImageWTYFileHeader) (szs : List Nat) (off : Nat)
      (p : List (List Nat)),
      e1.map writerProj = e2.map writerProj →
      ((update_layout_go e1 szs off).map (fileHeaderBlock fhl) =
        (update_layout_go e2 szs off).map (fileHeaderBlock fhl)) ∧
      (List.zipWith paddedPayload (update_layout_go e1 szs off) p =
        List.zipWith paddedPayload (update_layout_go e2 szs off) p) := by
  induction e1 with
  | nil =>
      intro e2 szs off p hagree
      have he2 : e2 = [] := by
        cases e2 with
        | nil => rfl
        | cons a t => exact absurd hagree (by simp)
      subst he2
      cases szs with
      | nil => exact ⟨rfl, rfl⟩
      | cons sz szs => exact ⟨rfl, rfl⟩
  | cons fh1 e1 ih =>
      intro e2 szs off p hagree
      cases e2 with
      | nil => exact absurd hagree (by simp)
      | cons fh2 e2 =>
          rw [List.map_cons, List.map_cons, List.cons_eq_cons] at hagree
          obtain ⟨hhead, htail⟩ := hagree
          cases szs with
          | nil => exact ⟨rfl, rfl⟩
          | cons sz szs =>
              have hrec := ih e2 szs ((off + (calculate_padding (sz % M64)).1) % M64)
                (p.tail) htail
              constructor
              · show fileHeaderBlock fhl _ :: (update_layout_go e1 szs _).map _ =
                  fileHeaderBlock fhl _ :: (update_layout_go e2 szs _).map _
                rw [fileHeaderBlock_congr fhl fh1 fh2 hhead, hrec.1]
              · cases p with
                | nil => exact rfl
                | cons p0 ps =>
                    show paddedPayload _ p0 :: List.zipWith paddedPayload
                        (update_layout_go e1 szs _) ps =
                      paddedPayload _ p0 :: List.zipWith paddedPayload
                        (update_layout_go e2 szs _) ps
                    have hrec2 := ih e2 szs
                      ((off + (calculate_padding (sz % M64)).1) % M64) ps htail
                    rw [hrec2.2]
                    rfl

/-- Claim C5: the bytes written by a successful repack do not depend on the
manifest's `offset`, `stored_length` or `original_length` values: two entry
lists that agree on every other field (equal `nonLayout` projections)
repack, against the same payload file contents, to identical containers. -/
theorem map_writerProj_of_map_nonLayout (e1 e2 : List ImageWTYFileHeader)
    (hagree : e1.map nonLayout = e2.map nonLayout) :
    e1.map writerProj = e2.map writerProj := by
  have h1 : e1.map writerProj = (e1.map nonLayout).map writerProj := by
    rw [List.map_map]
    rfl
  have h2 : e2.map writerProj = (e2.map nonLayout).map writerProj := by
    rw [List.map_map]
    rfl
  rw [h1, h2, hagree]

theorem claim_C5 (h : ImageWTYHeader) (e1 e2 : List ImageWTYFileHeader)
    (p : List (List Nat)) (hagree : e1.map nonLayout = e2.map nonLayout) :
    repack_write h e1 p = repack_write h e2 p := by
  unfold repack_write repack_update_layout
  obtain ⟨hb, hp⟩ := update_blocks_congr h.file_header_length e1 e2
    (p.map List.length) ((1024 + h.num_files * h.file_header_length % M32) % M32)
    p (map_writerProj_of_map_nonLayout e1 e2 hagree)
  rw [hb, hp]

/-- Concrete inputs for the claim C5 witness: two one-entry manifests that
differ only in the entry's declared offset, stored length and original
length. -/
def wE5a : ImageWTYFileHeader :=
  { zeroFileHeader with
      filename := [97]
      filename_length := 1
      stored_length := 16
      original_length := 5
      offset := 4096 }

def wE5b : ImageWTYFileHeader :=
  { zeroFileHeader with
      filename := [97]
      filename_length := 1
      stored_length := 640
      original_length := 333
      offset := 77777 }

def wH5 : ImageWTYHeader :=
  { zeroHeader with
      magic := [73, 77, 65, 71, 69, 87, 84, 89]
      num_files := 1
      file_header_length := 1024 }

/-- Witness for claim C5: the two manifests above produce identical output
bytes. -/
theorem claim_C5_witness : repack_write wH5 [wE5a] [[1, 2, 3]] =
    repack_write wH5 [wE5b] [[1, 2, 3]] :=
  claim_C5 wH5 [wE5a] [wE5b] [[1, 2, 3]] (by decide)

/- ------------------------------------------------------------------
Positional read lemmas used for the claim C1 round trip.
------------------------------------------------------------------ -/

theorem drop_append_add (a t : List Nat) (k : Nat) :
    (a ++ t).drop (a.length + k) = t.drop k := by
  have h1 : (a ++ t).drop (a.length + k) = ((a ++ t).drop a.length).drop k := by
    rw [List.drop_drop, Nat.add_comm]
  rw [h1, List.drop_left]

/-- Chain a known split of `x` at position `p` into a split at `p + L`. -/
theorem drop_chain (x : List Nat) (p : Nat) (m t : List Nat) (L : Nat)
    (h : x.drop p = m ++ t) (hm : m.length = L) (q : Nat) (hq : q = p + L) :
    x.drop q = t := by
  subst hq
  have hc := congrArg (List.drop L) h
  rw [List.drop_drop] at hc
  rw [hc, ← hm, List.drop_left]

theorem read_u32_head (n : Nat) (t : List Nat) (hn : n < M32) :
    read_uint32_at (u32le4 n ++ t) 0 = .ok n := by
  show CResult.ok (word_le (n % 256) (n / 256 % 256) (n / 65536 % 256)
    (n / 16777216 % 256)) = CResult.ok n
  rw [word_le_u32le4, Nat.mod_eq_of_lt hn]

theorem read_u32_at_of_drop (x : List Nat) (p n : Nat) (t : List Nat)
    (hd : x.drop p = u32le4 n ++ t) (hn : n < M32) :
    read_uint32_at x p = .ok n := by
  unfold read_uint32_at
  rw [hd]
  exact read_u32_head n t hn

theorem readBytes_at_of_drop (x : List Nat) (p : Nat) (m t : List Nat) (n : Nat)
    (hd : x.drop p = m ++ t) (hm : m.length = n) :
    readBytesAt x p n = .ok m := by
  unfold readBytesAt
  rw [hd]
  have htake : (m ++ t).take n = m := by
    rw [← hm]
    exact List.take_left m t
  rw [htake]
  show (if m.length = n then CResult.ok m else CResult.exitFailure) = CResult.ok m
  rw [hm]
  simp

theorem padZero_of_length (n : Nat) (l : List Nat) (h : l.length = n) :
    padZero n l = l := by
  unfold padZero
  rw [h, Nat.sub_self, List.replicate_zero, List.append_nil,
    List.take_of_length_le (Nat.le_of_eq h)]

theorem padZero_length (n : Nat) (l : List Nat) (h : l.length ≤ n) :
    (padZero n l).length = n := by
  unfold padZero
  rw [List.length_append, List.length_take, List.length_replicate]
  omega

theorem padZero_split (n : Nat) (l : List Nat) (h : l.length ≤ n) :
    padZero n l = l ++ List.replicate (n - l.length) 0 := by
  unfold padZero
  rw [List.take_of_length_le h]

/-- Reading the main header back from a global header block written by
`repack_image`: recovers the header exactly, provided its magic buffer has
the full 8 bytes and the `uint32_t` fields are in range. -/
theorem read_image_header_spec (h : ImageWTYHeader) (rest : List Nat)
    (hm : h.magic.length = 8)
    (hf1 : h.header_version < M32) (hf2 : h.header_size < M32)
    (hf3 : h.base_ram < M32) (hf4 : h.format_version < M32)
    (hf5 : h.total_image_size < M32) (hf6 : h.header_size_aligned < M32)
    (hf7 : h.file_header_length < M32) (hf8 : h.usb_product_id < M32)
    (hf9 : h.usb_vendor_id < M32) (hf10 : h.hardware_id < M32)
    (hf11 : h.firmware_id < M32) (hf12 : h.unknown1 < M32)
    (hf13 : h.unknown2 < M32) (hf14 : h.num_files < M32)
    (hf15 : h.unknown3 < M32) :
    read_image_header (globalHeaderBlock h ++ rest) = .ok h := by
  have hx : globalHeaderBlock h ++ rest = h.magic ++ (u32le4 h.header_version ++
      (u32le4 h.header_size ++ (u32le4 h.base_ram ++ (u32le4 h.format_version ++
      (u32le4 h.total_image_size ++ (u32le4 h.header_size_aligned ++
      (u32le4 h.file_header_length ++ (u32le4 h.usb_product_id ++
      (u32le4 h.usb_vendor_id ++ (u32le4 h.hardware_id ++ (u32le4 h.firmware_id ++
      (u32le4 h.unknown1 ++ (u32le4 h.unknown2 ++ (u32le4 h.num_files ++
      (u32le4 h.unknown3 ++ (List.replicate 956 0 ++ rest)))))))))))))))) := by
    unfold globalHeaderBlock
    rw [padZero_of_length 8 h.magic hm]
    simp only [List.append_assoc]
  have h0 : (globalHeaderBlock h ++ rest).drop 0 = h.magic ++ (u32le4 h.header_version ++
      (u32le4 h.header_size ++ (u32le4 h.base_ram ++ (u32le4 h.format_version ++
      (u32le4 h.total_image_size ++ (u32le4 h.header_size_aligned ++
      (u32le4 h.file_header_length ++ (u32le4 h.usb_product_id ++
      (u32le4 h.usb_vendor_id ++ (u32le4 h.hardware_id ++ (u32le4 h.firmware_id ++
      (u32le4 h.unknown1 ++ (u32le4 h.unknown2 ++ (u32le4 h.num_files ++
      (u32le4 h.unknown3 ++ (List.replicate 956 0 ++ rest)))))))))))))))) := by
    rw [List.drop_zero]
    exact hx
  have h8 := drop_chain _ 0 h.magic _ 8 h0 hm 8 rfl
  have h12 := drop_chain _ 8 (u32le4 h.header_version) _ 4 h8 rfl 12 rfl
  have h16 := drop_chain _ 12 (u32le4 h.header_size) _ 4 h12 rfl 16 rfl
  have h20 := drop_chain _ 16 (u32le4 h.base_ram) _ 4 h16 rfl 20 rfl
  have h24 := drop_chain _ 20 (u32le4 h.format_version) _ 4 h20 rfl 24 rfl
  have h28 := drop_chain _ 24 (u32le4 h.total_image_size) _ 4 h24 rfl 28 rfl
  have h32 := drop_chain _ 28 (u32le4 h.header_size_aligned) _ 4 h28 rfl 32 rfl
  have h36 := drop_chain _ 32 (u32le4 h.file_header_length) _ 4 h32 rfl 36 rfl
  have h40 := drop_chain _ 36 (u32le4 h.usb_product_id) _ 4 h36 rfl 40 rfl
  have h44 := drop_chain _ 40 (u32le4 h.usb_vendor_id) _ 4 h40 rfl 44 rfl
  have h48 := drop_chain _ 44 (u32le4 h.hardware_id) _ 4 h44 rfl 48 rfl
  have h52 := drop_chain _ 48 (u32le4 h.firmware_id) _ 4 h48 rfl 52 rfl
  have h56 := drop_chain _ 52 (u32le4 h.unknown1) _ 4 h52 rfl 56 rfl
  have h60 := drop_chain _ 56 (u32le4 h.unknown2) _ 4 h56 rfl 60 rfl
  have h64 := drop_chain _ 60 (u32le4 h.num_files) _ 4 h60 rfl 64 rfl
  have r1 := read_u32_at_of_drop _ 8 _ _ h8 hf1
  have r2 := read_u32_at_of_drop _ 12 _ _ h12 hf2
  have r3 := read_u32_at_of_drop _ 16 _ _ h16 hf3
  have r4 := read_u32_at_of_drop _ 20 _ _ h20 hf4
  have r5 := read_u32_at_of_drop _ 24 _ _ h24 hf5
  have r6 := read_u32_at_of_drop _ 28 _ _ h28 hf6
  have r7 := read_u32_at_of_drop _ 32 _ _ h32 hf7
  have r8 := read_u32_at_of_drop _ 36 _ _ h36 hf8
  have r9 := read_u32_at_of_drop _ 40 _ _ h40 hf9
  have r10 := read_u32_at_of_drop _ 44 _ _ h44 hf10
  have r11 := read_u32_at_of_drop _ 48 _ _ h48 hf11
  have r12 := read_u32_at_of_drop _ 52 _ _ h52 hf12
  have r13 := read_u32_at_of_drop _ 56 _ _ h56 hf13
  have r14 := read_u32_at_of_drop _ 60 _ _ h60 hf14
  have r15 := read_u32_at_of_drop _ 64 _ _ h64 hf15
  have hlen : ¬ ((globalHeaderBlock h ++ rest).length < 8) := by
    rw [hx, List.length_append, hm]
    omega
  have htake : (globalHeaderBlock h ++ rest).take 8 = h.magic := by
    rw [hx, ← hm]
    exact List.take_left _ _
  unfold read_image_header
  rw [if_neg hlen, r1, r2, r3, r4, r5, r6, r7, r8, r9, r10, r11, r12, r13, r14,
    r15, htake]

/-- Reduction of `read_file_header` once the filename-length field is known. -/
theorem read_file_header_ok_fl (x : List Nat) (s fl : Nat)
    (h0 : read_uint32_at x s = .ok fl) :
    read_file_header x s =
      match read_uint32_at x (s + 4), readBytesAt x (s + 8) 8,
          readBytesAt x (s + 16) 16, read_uint32_at x (s + 32),
          readBytesAt x (s + 36) (min fl 256), read_uint32_at x (s + 292),
          read_uint32_at x (s + 296), read_uint32_at x (s + 300),
          read_uint32_at x (s + 304), read_uint32_at x (s + 308) with
      | .ok hs, .ok mt, .ok st, .ok u0, .ok fn, .ok sl, .ok p1, .ok ol,
          .ok p2, .ok off =>
          .ok ⟨min fl 256, hs, mt, st, u0, fn, sl, p1, ol, p2, off⟩
      | _, _, _, _, _, _, _, _, _, _ => .exitFailure := by
  unfold read_file_header
  rw [h0]

/-- Reading one file-header record back from a record block written by
`repack_image`: recovers the entry with `pad1`/`pad2` zeroed (the writer
emits `memset` zeros at 0x128/0x130 regardless of the entry), provided the
entry is well-formed (fixed-width string buffers full, filename length
consistent and at most 256, numeric fields in `uint32_t` range). -/
theorem read_file_header_spec (pre : List Nat) (fh : ImageWTYFileHeader)
    (fhl : Nat) (post : List Nat)
    (hmt : fh.maintype.length = 8) (hst : fh.subtype.length = 16)
    (hfl : fh.filename_length = fh.filename.length)
    (hfl256 : fh.filename.length ≤ 256)
    (hhs : fh.header_size < M32) (hu0 : fh.unknown0 < M32)
    (hsl : fh.stored_length < M32) (hol : fh.original_length < M32)
    (hoff : fh.offset < M32) :
    read_file_header (pre ++ (fileHeaderBlock fhl fh ++ post)) pre.length =
      .ok { fh with pad1 := 0, pad2 := 0 } := by
  have hx : pre ++ (fileHeaderBlock fhl fh ++ post) =
      pre ++ (u32le4 fh.filename_length ++ (u32le4 fh.header_size ++
      (fh.maintype ++ (fh.subtype ++ (u32le4 fh.unknown0 ++ (fh.filename ++
      (List.replicate (256 - fh.filename.length) 0 ++ (u32le4 fh.stored_length ++
      (u32le4 0 ++ (u32le4 fh.original_length ++ (u32le4 0 ++
      (u32le4 fh.offset ++ (List.replicate (fhl - 312) 0 ++ post))))))))))))) := by
    unfold fileHeaderBlock
    rw [padZero_of_length 8 fh.maintype hmt, padZero_of_length 16 fh.subtype hst,
      padZero_split 256 fh.filename hfl256]
    simp only [List.append_assoc]
  set x := pre ++ (fileHeaderBlock fhl fh ++ post) with hxdef
  have hd0 : x.drop pre.length = u32le4 fh.filename_length ++
      (u32le4 fh.header_size ++ (fh.maintype ++ (fh.subtype ++
      (u32le4 fh.unknown0 ++ (fh.filename ++
      (List.replicate (256 - fh.filename.length) 0 ++ (u32le4 fh.stored_length ++
      (u32le4 0 ++ (u32le4 fh.original_length ++ (u32le4 0 ++
      (u32le4 fh.offset ++ (List.replicate (fhl - 312) 0 ++ post)))))))))))) := by
    rw [hx]
    exact List.drop_left pre _
  have hd4 := drop_chain x pre.length (u32le4 fh.filename_length) _ 4 hd0 rfl
    (pre.length + 4) rfl
  have hd8 := drop_chain x (pre.length + 4) (u32le4 fh.header_size) _ 4 hd4 rfl
    (pre.length + 8) (by omega)
  have hd16 := drop_chain x (pre.length + 8) fh.maintype _ 8 hd8 hmt
    (pre.length + 16) (by omega)
  have hd32 := drop_chain x (pre.length + 16) fh.subtype _ 16 hd16 hst
    (pre.length + 32) (by omega)
  have hd36 := drop_chain x (pre.length + 32) (u32le4 fh.unknown0) _ 4 hd32 rfl
    (pre.length + 36) (by omega)
  have hdfn := drop_chain x (pre.length + 36) fh.filename _ fh.filename.length
    hd36 rfl (pre.length + 36 + fh.filename.length) (by omega)
  have hd292 := drop_chain x (pre.length + 36 + fh.filename.length)
    (List.replicate (256 - fh.filename.length) 0) _ (256 - fh.filename.length)
    hdfn (List.length_replicate _ _) (pre.length + 292) (by omega)
  have hd296 := drop_chain x (pre.length + 292) (u32le4 fh.stored_length) _ 4
    hd292 rfl (pre.length + 296) (by omega)
  have hd300 := drop_chain x (pre.length + 296) (u32le4 0) _ 4 hd296 rfl
    (pre.length + 300) (by omega)
  have hd304 := drop_chain x (pre.length + 300) (u32le4 fh.original_length) _ 4
    hd300 rfl (pre.length + 304) (by omega)
  have hd308 := drop_chain x (pre.length + 304) (u32le4 0) _ 4 hd304 rfl
    (pre.length + 308) (by omega)
  have hfl32 : fh.filename_length < M32 := by
    have : fh.filename_length ≤ 256 := by omega
    have hM : (256 : Nat) < M32 := by decide
    omega
  have r0 := read_u32_at_of_drop x pre.length _ _ hd0 hfl32
  have r1 := read_u32_at_of_drop x (pre.length + 4) _ _ hd4 hhs
  have r2 := readBytes_at_of_drop x (pre.length + 8) fh.maintype _ 8 hd8 hmt
  have r3 := readBytes_at_of_drop x (pre.length + 16) fh.subtype _ 16 hd16 hst
  have r4 := read_u32_at_of_drop x (pre.length + 32) _ _ hd32 hu0
  have hmin : min fh.filename_length 256 = fh.filename.length := by
    rw [hfl]
    exact Nat.min_eq_left hfl256
  have r5 : readBytesAt x (pre.length + 36) (min fh.filename_length 256) =
      .ok fh.filename := by
    rw [hmin]
    exact readBytes_at_of_drop x (pre.length + 36) fh.filename _ _ hd36 rfl
  have r6 := read_u32_at_of_drop x (pre.length + 292) _ _ hd292 hsl
  have r7 := read_u32_at_of_drop x (pre.length + 296) _ _ hd296 (by decide)
  have r8 := read_u32_at_of_drop x (pre.length + 300) _ _ hd300 hol
  have r9 := read_u32_at_of_drop x (pre.length + 304) _ _ hd304 (by decide)
  have r10 := read_u32_at_of_drop x (pre.length + 308) _ _ hd308 hoff
  rw [read_file_header_ok_fl x pre.length fh.filename_length r0]
  rw [r1, r2, r3, r4, r5, r6, r7, r8, r9, r10, hmin, hfl]

/-- The entry as the reader returns it: `pad1`/`pad2` were written as zeros. -/
def padsZero (fh : ImageWTYFileHeader) : ImageWTYFileHeader :=
  { fh with pad1 := 0, pad2 := 0 }

/-- Well-formedness of one entry as the writer lays it out: full fixed-width
string buffers, consistent filename length, `uint32_t`-ranged fields. -/
def entryWF (fh : ImageWTYFileHeader) : Prop :=
  fh.maintype.length = 8 ∧ fh.subtype.length = 16 ∧
  fh.filename_length = fh.filename.length ∧ fh.filename.length ≤ 256 ∧
  fh.header_size < M32 ∧ fh.unknown0 < M32 ∧ fh.stored_length < M32 ∧
  fh.original_length < M32 ∧ fh.offset < M32

theorem fileHeaderBlock_length (fhl : Nat) (fh : ImageWTYFileHeader)
    (h312 : 312 ≤ fhl) (hmt : fh.maintype.length ≤ 8)
    (hst : fh.subtype.length ≤ 16) (hfn : fh.filename.length ≤ 256) :
    (fileHeaderBlock fhl fh).length = fhl := by
  unfold fileHeaderBlock u32le4
  rw [List.length_append, List.length_append, List.length_append,
    List.length_append, List.length_append, List.length_append,
    List.length_append, List.length_append, List.length_append,
    List.length_append, List.length_append,
    padZero_length 8 fh.maintype hmt, padZero_length 16 fh.subtype hst,
    padZero_length 256 fh.filename hfn, List.length_replicate]
  show 4 + 4 + 8 + 16 + 4 + 256 + 4 + 4 + 4 + 4 + 4 + (fhl - 312) = fhl
  omega

theorem read_all_go_spec (fhl : Nat) (h312 : 312 ≤ fhl)
    (us : List ImageWTYFileHeader) :
    ∀ (i : Nat) (pre post x : List Nat),
      (∀ e ∈ us, entryWF e) →
      x = pre ++ ((us.map (fileHeaderBlock fhl)).flatten ++ post) →
      pre.length = 1024 + i * fhl →
      1024 + (i + us.length) * fhl < M32 →
      read_all_go x fhl us.length i = .ok (us.map padsZero) := by
  induction us with
  | nil =>
      intro i pre post x _ _ _ _
      rfl
  | cons u0 us ih =>
      intro i pre post x hwf hx hpre hsm
      have hwf0 : entryWF u0 := hwf u0 (List.mem_cons_self u0 us)
      obtain ⟨wmt, wst, wfl, wfn, whs, wu0, wsl, wol, woff⟩ := hwf0
      have hx2 : x = pre ++ (fileHeaderBlock fhl u0 ++
          ((us.map (fileHeaderBlock fhl)).flatten ++ post)) := by
        rw [hx, List.map_cons, List.flatten_cons, List.append_assoc]
      have hfmul : i * fhl ≤ (i + (us.length + 1)) * fhl :=
        Nat.mul_le_mul_right fhl (by omega)
      have hlencons : (u0 :: us).length = us.length + 1 := rfl
      rw [hlencons] at hsm
      have hm1 : i * fhl % M32 = i * fhl := Nat.mod_eq_of_lt (by omega)
      have hm2 : (1024 + i * fhl) % M32 = 1024 + i * fhl := Nat.mod_eq_of_lt (by omega)
      have hpos : (1024 + i * fhl % M32) % M32 = pre.length := by
        rw [hpre, hm1, hm2]
      have hr : read_file_header x pre.length = .ok (padsZero u0) := by
        rw [hx2]
        exact read_file_header_spec pre u0 fhl _ wmt wst wfl wfn whs wu0 wsl wol woff
      have hblen : (fileHeaderBlock fhl u0).length = fhl :=
        fileHeaderBlock_length fhl u0 h312 (by omega) (by omega) wfn
      have hrec : read_all_go x fhl us.length (i + 1) = .ok (us.map padsZero) := by
        apply ih (i + 1) (pre ++ fileHeaderBlock fhl u0) post x
          (fun e he => hwf e (List.mem_cons_of_mem u0 he))
        · rw [hx2, List.append_assoc]
        · rw [List.length_append, hpre, hblen]
          ring
        · have : (i + 1) + us.length = i + (us.length + 1) := by omega
          rw [this]
          exact hsm
      show (match read_file_header x ((1024 + i * fhl % M32) % M32) with
        | .exitFailure => CResult.exitFailure
        | .ok fh =>
          match read_all_go x fhl us.length (i + 1) with
          | .exitFailure => CResult.exitFailure
          | .ok rest => .ok (fh :: rest)) = .ok ((u0 :: us).map padsZero)
      rw [hpos, hr, hrec]
      rfl

/- ------------------------------------------------------------------
Claim C1: binary round trip.
------------------------------------------------------------------ -/

theorem repack_update_layout_eq (h : ImageWTYHeader)
    (files : List ImageWTYFileHeader) (sizes : List Nat)
    (hn : h.num_files = files.length)
    (hl : files.length = sizes.length)
    (hsm : 1024 + h.num_files * h.file_header_length +
      (sizes.map storedOf).sum < M32) :
    repack_update_layout h files sizes =
      layoutZip files sizes (1024 + files.length * h.file_header_length) := by
  have hoff0 : (1024 + h.num_files * h.file_header_length % M32) % M32 =
      1024 + files.length * h.file_header_length := by
    rw [hn] at hsm ⊢
    rw [Nat.mod_eq_of_lt (show files.length * h.file_header_length < M32 by omega)]
    exact Nat.mod_eq_of_lt (by omega)
  unfold repack_update_layout
  rw [hoff0]
  apply update_layout_go_eq files sizes _ hl
  rw [hn] at hsm
  omega

theorem globalHeaderBlock_length (h : ImageWTYHeader)
    (hm : h.magic.length ≤ 8) : (globalHeaderBlock h).length = 1024 := by
  unfold globalHeaderBlock u32le4
  rw [List.length_append, List.length_append, List.length_append,
    List.length_append, List.length_append, List.length_append,
    List.length_append, List.length_append, List.length_append,
    List.length_append, List.length_append, List.length_append,
    List.length_append, List.length_append, List.length_append,
    List.length_append, padZero_length 8 h.magic hm, List.length_replicate]
  rfl

theorem blocks_flatten_length (fhl : Nat) (h312 : 312 ≤ fhl) :
    ∀ u : List ImageWTYFileHeader, (∀ e ∈ u, entryWF e) →
      ((u.map (fileHeaderBlock fhl)).flatten).length = u.length * fhl := by
  intro u
  induction u with
  | nil => intro _; simp
  | cons e0 u ih =>
      intro hwf
      obtain ⟨wmt, wst, wfl, wfn, _, _, _, _, _⟩ := hwf e0 (List.mem_cons_self e0 u)
      rw [List.map_cons, List.flatten_cons, List.length_append,
        fileHeaderBlock_length fhl e0 h312 (by omega) (by omega) wfn,
        ih (fun e he => hwf e (List.mem_cons_of_mem e0 he)),
        List.length_cons, Nat.succ_mul]
      omega

theorem layoutZip_entryWF (fs : List ImageWTYFileHeader) :
    ∀ (szs : List Nat) (off : Nat),
      fs.length = szs.length →
      off + (szs.map storedOf).sum < M32 →
      (∀ e ∈ fs, e.maintype.length = 8 ∧ e.subtype.length = 16 ∧
        e.filename_length = e.filename.length ∧ e.filename.length ≤ 256 ∧
        e.header_size < M32 ∧ e.unknown0 < M32) →
      ∀ e ∈ layoutZip fs szs off, entryWF e := by
  induction fs with
  | nil =>
      intro szs off _ _ _ e he
      cases szs with
      | nil => exact absurd he (by simp [layoutZip])
      | cons s ss => exact absurd he (by simp [layoutZip])
  | cons f0 fs ih =>
      intro szs off hlen hsm hwf e he
      cases szs with
      | nil => exact absurd hlen (by simp)
      | cons sz szs =>
          rw [layoutZip_cons, List.mem_cons] at he
          have hsum : (List.map storedOf (sz :: szs)).sum =
              storedOf sz + (List.map storedOf szs).sum := by
            rw [List.map_cons, List.sum_cons]
          rw [hsum] at hsm
          cases he with
          | inl heq =>
              subst heq
              obtain ⟨wmt, wst, wfl, wfn, whs, wu0⟩ :=
                hwf f0 (List.mem_cons_self f0 fs)
              have hle := storedOf_le sz
              exact ⟨wmt, wst, wfl, wfn, whs, wu0,
                show storedOf sz < M32 by omega,
                show sz < M32 by omega,
                show off < M32 by omega⟩
          | inr htail =>
              exact ih szs (off + storedOf sz) (by simpa using hlen) (by omega)
                (fun e he => hwf e (List.mem_cons_of_mem f0 he)) e htail

theorem layoutZip_map_writerProj (fs : List ImageWTYFileHeader) :
    ∀ (szs : List Nat) (off : Nat), fs.length = szs.length →
      (layoutZip fs szs off).map writerProj = fs.map writerProj := by
  induction fs with
  | nil =>
      intro szs off _
      cases szs with
      | nil => rfl
      | cons s ss => rfl
  | cons f0 fs ih =>
      intro szs off hlen
      cases szs with
      | nil => exact absurd hlen (by simp)
      | cons sz szs =>
          rw [layoutZip_cons, List.map_cons, List.map_cons,
            ih szs _ (by simpa using hlen)]
          rfl

theorem payloadsOf_padsZero (x : List Nat) (u : List ImageWTYFileHeader) :
    payloadsOf x (u.map padsZero) = payloadsOf x u := by
  unfold payloadsOf
  rw [List.map_map]
  rfl

theorem paddedPayload_layout_length (f0 : ImageWTYFileHeader) (p0 : List Nat)
    (pos : Nat) :
    (paddedPayload { f0 with
        original_length := p0.length
        stored_length := storedOf p0.length
        offset := pos } p0).length = storedOf p0.length := by
  show (p0.take p0.length ++
    List.replicate (storedOf p0.length - p0.length) 0).length = _
  rw [List.length_append, List.take_length, List.length_replicate]
  have := storedOf_le p0.length
  omega

theorem payloads_extract (fs : List ImageWTYFileHeader) :
    ∀ (ps : List (List Nat)) (pos : Nat) (x : List Nat),
      fs.length = ps.length →
      x.drop pos = (List.zipWith paddedPayload
        (layoutZip fs (ps.map List.length) pos) ps).flatten →
      payloadsOf x (layoutZip fs (ps.map List.length) pos) = ps := by
  induction fs with
  | nil =>
      intro ps pos x hlen _
      cases ps with
      | nil => rfl
      | cons p0 ps => exact absurd hlen (by simp)
  | cons f0 fs ih =>
      intro ps pos x hlen hd
      cases ps with
      | nil => exact absurd hlen (by simp)
      | cons p0 ps =>
          have hdc : x.drop pos =
              (p0.take p0.length ++
                List.replicate (storedOf p0.length - p0.length) 0) ++
              (List.zipWith paddedPayload
                (layoutZip fs (ps.map List.length) (pos + storedOf p0.length))
                ps).flatten := hd
          rw [List.take_length] at hdc
          have hhead : (x.drop pos).take p0.length = p0 := by
            rw [hdc, List.append_assoc]
            exact List.take_left p0 _
          have hplen : (p0 ++ List.replicate (storedOf p0.length - p0.length)
              0).length = storedOf p0.length := by
            rw [List.length_append, List.length_replicate]
            have := storedOf_le p0.length
            omega
          have htail := drop_chain x pos
            (p0 ++ List.replicate (storedOf p0.length - p0.length) 0) _
            (storedOf p0.length) hdc hplen (pos + storedOf p0.length) rfl
          have hrec := ih ps (pos + storedOf p0.length) x (by simpa using hlen)
            htail
          show (x.drop pos).take p0.length ::
            payloadsOf x (layoutZip fs (ps.map List.length)
              (pos + storedOf p0.length)) = p0 :: ps
          rw [hhead, hrec]

/-- Reduction of `roundtrip` once both decode steps are known to succeed. -/
theorem roundtrip_ok (x : List Nat) (h : ImageWTYHeader)
    (files : List ImageWTYFileHeader)
    (hh : read_image_header x = .ok h)
    (he : read_all_file_headers x h.num_files h.file_header_length = .ok files) :
    roundtrip x = some (repack_write h files (payloadsOf x files)) := by
  unfold roundtrip
  rw [hh]
  show (match read_all_file_headers x h.num_files h.file_header_length with
    | .exitFailure => none
    | .ok files => some (repack_write h files (payloadsOf x files))) = _
  rw [he]

/-- Well-formedness of a container's constituents under which `repack_image`
writes a canonical image: valid IMAGEWTY magic, `uint32_t`-ranged header
fields, full fixed-width entry string buffers, consistent filename lengths,
the standard record stride, and a layout that fits the 32-bit offset
fields. -/
def Canonical (h : ImageWTYHeader) (files : List ImageWTYFileHeader)
    (payloads : List (List Nat)) : Prop :=
  h.magic = [73, 77, 65, 71, 69, 87, 84, 89] ∧
  h.header_version < M32 ∧ h.header_size < M32 ∧ h.base_ram < M32 ∧
  h.format_version < M32 ∧ h.total_image_size < M32 ∧
  h.header_size_aligned < M32 ∧ h.file_header_length < M32 ∧
  h.usb_product_id < M32 ∧ h.usb_vendor_id < M32 ∧ h.hardware_id < M32 ∧
  h.firmware_id < M32 ∧ h.unknown1 < M32 ∧ h.unknown2 < M32 ∧
  h.num_files < M32 ∧ h.unknown3 < M32 ∧
  h.num_files = files.length ∧ files.length = payloads.length ∧
  312 ≤ h.file_header_length ∧
  1024 + files.length * h.file_header_length +
    ((payloads.map List.length).map storedOf).sum < M32 ∧
  (∀ fh ∈ files, fh.maintype.length = 8 ∧ fh.subtype.length = 16 ∧
    fh.filename_length = fh.filename.length ∧ fh.filename.length ≤ 256 ∧
    fh.header_size < M32 ∧ fh.unknown0 < M32)

instance instDecCanonical (h : ImageWTYHeader) (files : List ImageWTYFileHeader)
    (payloads : List (List Nat)) : Decidable (Canonical h files payloads) := by
  unfold Canonical
  infer_instance

/-- Claim C1 (amended): writing a container from the header returned by
`read_image_header`, the entries returned by `read_all_file_headers`, and
the container's own payload bytes reproduces the container byte-exactly,
for every container the repack writer itself can produce from canonical
constituents — i.e. whose pad1/pad2 fields, filename-field tails, header
slack and inter-payload padding are zero and whose layout is the canonical
contiguous 16-aligned one.  (A container with a nonzero pad1 byte is NOT
reproduced: see `claim_C1_counterexample`.) -/
theorem claim_C1 (h : ImageWTYHeader) (files : List ImageWTYFileHeader)
    (payloads : List (List Nat)) (hc : Canonical h files payloads) :
    roundtrip (repack_write h files payloads) =
      some (repack_write h files payloads) := by
  obtain ⟨hmag, hf1, hf2, hf3, hf4, hf5, hf6, hf7, hf8, hf9, hf10, hf11, hf12,
    hf13, hf14, hf15, hn, hlp, h312, hsm, hwf⟩ := hc
  have hm8 : h.magic.length = 8 := by rw [hmag]; rfl
  have hls : files.length = (payloads.map List.length).length := by
    rw [List.length_map, hlp]
  have hsm2 : 1024 + h.num_files * h.file_header_length +
      ((payloads.map List.length).map storedOf).sum < M32 := by
    rw [hn]
    exact hsm
  have heq : repack_update_layout h files (payloads.map List.length) =
      layoutZip files (payloads.map List.length)
        (1024 + files.length * h.file_header_length) :=
    repack_update_layout_eq h files (payloads.map List.length) hn hls hsm2
  have hxdef : repack_write h files payloads =
      globalHeaderBlock h ++
        (((layoutZip files (payloads.map List.length)
            (1024 + files.length * h.file_header_length)).map
          (fileHeaderBlock h.file_header_length)).flatten ++
        (List.zipWith paddedPayload
          (layoutZip files (payloads.map List.length)
            (1024 + files.length * h.file_header_length)) payloads).flatten) := by
    unfold repack_write
    rw [heq, List.append_assoc]
  have hulen : (layoutZip files (payloads.map List.length)
      (1024 + files.length * h.file_header_length)).length = files.length :=
    layoutZip_length files _ _ hls
  have huwf : ∀ e ∈ layoutZip files (payloads.map List.length)
      (1024 + files.length * h.file_header_length), entryWF e :=
    layoutZip_entryWF files _ _ hls (by omega) hwf
  have hr1 : read_image_header (repack_write h files payloads) = .ok h := by
    rw [hxdef]
    exact read_image_header_spec h _ hm8 hf1 hf2 hf3 hf4 hf5 hf6 hf7 hf8 hf9
      hf10 hf11 hf12 hf13 hf14 hf15
  have hr2 : read_all_file_headers (repack_write h files payloads) h.num_files
      h.file_header_length = .ok ((layoutZip files (payloads.map List.length)
        (1024 + files.length * h.file_header_length)).map padsZero) := by
    unfold read_all_file_headers
    have hcount : h.num_files = (layoutZip files (payloads.map List.length)
        (1024 + files.length * h.file_header_length)).length := by
      rw [hn, hulen]
    rw [hcount]
    apply read_all_go_spec h.file_header_length h312 _ 0 (globalHeaderBlock h)
      ((List.zipWith paddedPayload
        (layoutZip files (payloads.map List.length)
          (1024 + files.length * h.file_header_length)) payloads).flatten)
      (repack_write h files payloads) huwf hxdef
    · rw [globalHeaderBlock_length h (by omega)]
      omega
    · rw [Nat.zero_add, hulen]
      omega
  have hghblen : (globalHeaderBlock h).length = 1024 :=
    globalHeaderBlock_length h (by omega)
  have hblen : (((layoutZip files (payloads.map List.length)
      (1024 + files.length * h.file_header_length)).map
        (fileHeaderBlock h.file_header_length)).flatten).length =
      files.length * h.file_header_length := by
    rw [blocks_flatten_length h.file_header_length h312 _ huwf, hulen]
  have hdrop : (repack_write h files payloads).drop
      (1024 + files.length * h.file_header_length) =
      (List.zipWith paddedPayload
        (layoutZip files (payloads.map List.length)
          (1024 + files.length * h.file_header_length)) payloads).flatten := by
    have hsplit : repack_write h files payloads =
        (globalHeaderBlock h ++
          ((layoutZip files (payloads.map List.length)
            (1024 + files.length * h.file_header_length)).map
            (fileHeaderBlock h.file_header_length)).flatten) ++
        (List.zipWith paddedPayload
          (layoutZip files (payloads.map List.length)
            (1024 + files.length * h.file_header_length)) payloads).flatten := by
      rw [hxdef, List.append_assoc]
    have hprelen : (globalHeaderBlock h ++
        ((layoutZip files (payloads.map List.length)
          (1024 + files.length * h.file_header_length)).map
          (fileHeaderBlock h.file_header_length)).flatten).length =
        1024 + files.length * h.file_header_length := by
      rw [List.length_append, hghblen, hblen]
    have hdl := List.drop_left (globalHeaderBlock h ++
        ((layoutZip files (payloads.map List.length)
          (1024 + files.length * h.file_header_length)).map
          (fileHeaderBlock h.file_header_length)).flatten)
      (List.zipWith paddedPayload
        (layoutZip files (payloads.map List.length)
          (1024 + files.length * h.file_header_length)) payloads).flatten
    rw [hprelen] at hdl
    rw [hsplit]
    exact hdl
  have hr3 : payloadsOf (repack_write h files payloads)
      ((layoutZip files (payloads.map List.length)
        (1024 + files.length * h.file_header_length)).map padsZero) =
      payloads := by
    rw [payloadsOf_padsZero]
    exact payloads_extract files payloads _ _ hlp hdrop
  have hproj : ((layoutZip files (payloads.map List.length)
      (1024 + files.length * h.file_header_length)).map padsZero).map
      writerProj = files.map writerProj := by
    rw [List.map_map]
    have hcomp : ((layoutZip files (payloads.map List.length)
        (1024 + files.length * h.file_header_length)).map
        (writerProj ∘ padsZero)) = (layoutZip files (payloads.map List.length)
        (1024 + files.length * h.file_header_length)).map writerProj := rfl
    rw [hcomp]
    exact layoutZip_map_writerProj files _ _ hls
  have hr4 : repack_write h ((layoutZip files (payloads.map List.length)
      (1024 + files.length * h.file_header_length)).map padsZero) payloads =
      repack_write h files payloads := by
    unfold repack_write repack_update_layout
    obtain ⟨hb, hp⟩ := update_blocks_congr h.file_header_length _ files
      (payloads.map List.length)
      ((1024 + h.num_files * h.file_header_length % M32) % M32) payloads hproj
    rw [hb, hp]
  rw [roundtrip_ok (repack_write h files payloads) h _ hr1 hr2, hr3, hr4]

/-- Concrete canonical constituents for the claim C1 witness and
counterexample: one empty payload file named `a`. -/
def cH1 : ImageWTYHeader :=
  { zeroHeader with
      magic := [73, 77, 65, 71, 69, 87, 84, 89]
      header_version := 768
      header_size := 96
      total_image_size := 1336
      num_files := 1
      file_header_length := 312 }

def cE1 : ImageWTYFileHeader :=
  { zeroFileHeader with
      filename_length := 1
      header_size := 1024
      maintype := [67, 79, 77, 77, 79, 78, 0, 0]
      subtype := [66, 79, 79, 84, 0, 0, 0, 0, 0, 0, 0, 0, 0, 0, 0, 0]
      filename := [97] }

def cX1 : List Nat := repack_write cH1 [cE1] [[]]

/-- The same container with one byte changed: the entry's `pad1` field
(record offset 0x128, absolute offset 0x528 = 1320) set to 1. -/
def cX0 : List Nat := cX1.set 1320 1

set_option maxRecDepth 10000 in
/-- Witness for claim C1 at the concrete canonical container. -/
theorem claim_C1_witness : roundtrip cX1 = some cX1 :=
  claim_C1 cH1 [cE1] [[]] (by decide)

set_option maxRecDepth 100000 in
/-- Counterexample to claim C1 as stated: a container with a valid IMAGEWTY
magic whose entry has `pad1 = 1` decodes fine, but the round trip writes
zeros into `pad1`/`pad2`, so the rewritten container is not byte-identical
to the original. -/
theorem claim_C1_counterexample :
    cX0.take 8 = [73, 77, 65, 71, 69, 87, 84, 89] ∧
    roundtrip cX0 ≠ none ∧
    roundtrip cX0 ≠ some cX0 := by
  refine ⟨by decide, by decide, fun hcontra => ?_⟩
  have hslice := congrArg (Option.map fun y => (y.drop 1320).take 4) hcontra
  revert hslice
  decide

/- ------------------------------------------------------------------
Manifest Codec: `src/src/config_file.c`.
A manifest is modelled as its list of text lines (the C code is strictly
line-oriented via `fgets`).  Key names are bound as constants so that each
table entry of the C field maps appears exactly once.
------------------------------------------------------------------ -/

def kMagic : String := "magic"

def kHeaderVersion : String := "header_version"

def kHeaderSize : String := "header_size"

def kBaseRam : String := "base_ram"

def kFormatVersion : String := "format_version"

def kTotalImageSize : String := "total_image_size"

def kHeaderSizeAligned : String := "header_size_including_alignment"

def kFileHeaderLength : String := "file_header_length"

def kUsbProductId : String := "usb_product_id"

def kUsbVendorId : String := "usb_vendor_id"

def kHardwareId : String := "hardware_id"

def kFirmwareId : String := "firmware_id"

def kUnknownField1 : String := "unknown_field_1"

def kUnknownField2 : String := "unknown_field_2"

def kUnknownField3 : String := "unknown_field_3"

def kNumberOfFiles : String := "number_of_files"

def kFilenameLength : String := "filename_length"

def kUnknown0 : String := "unknown0"

def kStoredLength : String := "stored_length"

def kPad1 : String := "pad1"

def kOriginalLength : String := "original_length"

def kPad2 : String := "pad2"

def kOffset : String := "offset"

def kMaintype : String := "maintype"

def kSubtype : String := "subtype"

def kFilename : String := "filename"

def kFileHeaderSize : String := "file_header_size"

def kFilePrefix : String := "file_"

def kSecImageCfg : String := "[IMAGE_CFG]"

def kSecFilelist : String := "[FILELIST]"

def kBlockOpen : String := " \x7b"

def kBlockClose : String := "\x7d"

def kEmptyLine : String := ""

/-- `isspace` characters relevant to text lines. -/
def isSpaceChar (c : Char) : Bool :=
  c == ' ' || c == '\t' || c == '\n' || c == '\r' || c == '\x0b' || c == '\x0c'

/-- `strip_whitespace` from `config_file.c`. -/
def stripWS (l : List Char) : List Char :=
  ((l.dropWhile isSpaceChar).reverse.dropWhile isSpaceChar).reverse

/-- `clean_cfg_string` from `config_file.c`: strip whitespace, drop one
trailing semicolon, then strip one layer of surrounding double quotes. -/
def cleanCfg (l : List Char) : List Char :=
  let s1 := stripWS l
  if s1.length = 0 then s1
  else
    let s2 := if s1.getLast? == some ';' then s1.dropLast else s1
    if 2 ≤ s2.length ∧ s2.head? = some '"' ∧ s2.getLast? = some '"' then
      s2.dropLast.tail
    else s2

/-- `strchr(l, =)` splitting: key text before the first `=`, value text
after it; `none` when the line has no `=`. -/
def splitEq (l : List Char) : Option (List Char × List Char) :=
  if '=' ∈ l then some (l.takeWhile (· ≠ '='), (l.dropWhile (· ≠ '=')).tail)
  else none

def hexDigitVal (c : Char) : Option Nat :=
  if '0' ≤ c ∧ c ≤ '9' then some (c.toNat - 48)
  else if 'A' ≤ c ∧ c ≤ 'F' then some (c.toNat - 55)
  else if 'a' ≤ c ∧ c ≤ 'f' then some (c.toNat - 87)
  else none

def decDigitVal (c : Char) : Option Nat :=
  if '0' ≤ c ∧ c ≤ '9' then some (c.toNat - 48) else none

/-- The greedy digit prefix `strtoul` consumes. -/
def digitsPrefix (f : Char → Option Nat) : List Char → List Nat
  | [] => []
  | c :: rest =>
    match f c with
    | some d => d :: digitsPrefix f rest
    | none => []

/-- `strtoul` on an already-trimmed string: greedy digits, value saturating
at `ULONG_MAX` on overflow. -/
def strtoulModel (base : Nat) (f : Char → Option Nat) (l : List Char) : Nat :=
  min ((digitsPrefix f l).foldl (fun a d => a * base + d) 0) (M64 - 1)

/-- `parse_uint32` from `config_file.c`: `0x`-prefixed strings parse as hex
(strtoul base 16 skips the prefix), everything else as decimal; the result
is cast to `uint32_t`. -/
def parse_uint32 (l : List Char) : Nat :=
  (if l.take 2 = ['0', 'x'] then strtoulModel 16 hexDigitVal (l.drop 2)
   else strtoulModel 10 decDigitVal l) % M32

/-- One `key=value` assignment against the global header field tables of
`load_image_config` (string fields first, then `uint32` fields, then the
special `number_of_files` key), `snprintf` truncating string fields to the
C buffer width. -/
def applyGlobalKV (h : ImageWTYHeader) (nf : Nat) (key v : List Char) :
    ImageWTYHeader × Nat :=
  if key = kMagic.toList then ({ h with magic := (v.take 8).map Char.toNat }, nf)
  else if key = kHeaderVersion.toList then
    ({ h with header_version := parse_uint32 v }, nf)
  else if key = kHeaderSize.toList then
    ({ h with header_size := parse_uint32 v }, nf)
  else if key = kBaseRam.toList then ({ h with base_ram := parse_uint32 v }, nf)
  else if key = kFormatVersion.toList then
    ({ h with format_version := parse_uint32 v }, nf)
  else if key = kTotalImageSize.toList then
    ({ h with total_image_size := parse_uint32 v }, nf)
  else if key = kHeaderSizeAligned.toList then
    ({ h with header_size_aligned := parse_uint32 v }, nf)
  else if key = kFileHeaderLength.toList then
    ({ h with file_header_length := parse_uint32 v }, nf)
  else if key = kUsbProductId.toList then
    ({ h with usb_product_id := parse_uint32 v }, nf)
  else if key = kUsbVendorId.toList then
    ({ h with usb_vendor_id := parse_uint32 v }, nf)
  else if key = kHardwareId.toList then
    ({ h with hardware_id := parse_uint32 v }, nf)
  else if key = kFirmwareId.toList then
    ({ h with firmware_id := parse_uint32 v }, nf)
  else if key = kUnknownField1.toList then
    ({ h with unknown1 := parse_uint32 v }, nf)
  else if key = kUnknownField2.toList then
    ({ h with unknown2 := parse_uint32 v }, nf)
  else if key = kUnknownField3.toList then
    ({ h with unknown3 := parse_uint32 v }, nf)
  else if key = kNumberOfFiles.toList then (h, parse_uint32 v)
  else (h, nf)

/-- One line of the first (`global header fields`) pass of
`load_image_config`; note this pass runs over every line of the file,
including lines inside `file_N` blocks. -/
def globalLine (st : ImageWTYHeader × Nat) (line : String) :
    ImageWTYHeader × Nat :=
  let t := stripWS line.toList
  if t.isEmpty || t.head? == some '#' || t.head? == some ';' then st
  else
    match splitEq t with
    | none => st
    | some (k, v) => applyGlobalKV st.1 st.2 (stripWS k) (cleanCfg v)

def globalPass (lines : List String) : ImageWTYHeader × Nat :=
  lines.foldl globalLine (zeroHeader, 0)

def declaredNumFiles (lines : List String) : Nat := (globalPass lines).2

/-- State of the second (`file blocks`) pass of `load_image_config`:
current entry index, whether a block is open, whether the `break` on
excess blocks was hit (the C loop then ignores all remaining lines), and
the entry array. -/
structure PState where
  cf : Nat
  inb : Bool
  done : Bool
  entries : List ImageWTYFileHeader
deriving DecidableEq

/-- One `key=value` assignment against the per-entry field tables of
`load_image_config` (string fields first, then `uint32` fields); note the
per-entry header size is keyed `header_size` here while
`write_image_config` emits it as `file_header_size`. -/
def applyFileKV (fh : ImageWTYFileHeader) (key v : List Char) :
    ImageWTYFileHeader :=
  if key = kMaintype.toList then { fh with maintype := (v.take 8).map Char.toNat }
  else if key = kSubtype.toList then
    { fh with subtype := (v.take 16).map Char.toNat }
  else if key = kFilename.toList then
    { fh with filename := (v.take 256).map Char.toNat }
  else if key = kFilenameLength.toList then
    { fh with filename_length := parse_uint32 v }
  else if key = kHeaderSize.toList then { fh with header_size := parse_uint32 v }
  else if key = kUnknown0.toList then { fh with unknown0 := parse_uint32 v }
  else if key = kStoredLength.toList then
    { fh with stored_length := parse_uint32 v }
  else if key = kPad1.toList then { fh with pad1 := parse_uint32 v }
  else if key = kOriginalLength.toList then
    { fh with original_length := parse_uint32 v }
  else if key = kPad2.toList then { fh with pad2 := parse_uint32 v }
  else if key = kOffset.toList then { fh with offset := parse_uint32 v }
  else fh

/-- `strncmp(l, "file_", 5) == 0 && strchr(l, 0x7b)`. -/
def isBlockStart (t : List Char) : Bool :=
  kFilePrefix.toList.isPrefixOf t && t.contains '\x7b'

/-- One line of the file-block pass of `load_image_config`.  The `done`
flag is absorbing and models the C `break` once a block start is seen with
`current_file >= num_files`. -/
def fileLineStep (n : Nat) (st : PState) (line : String) : PState :=
  if st.done then st
  else
    let t := stripWS line.toList
    if t.isEmpty || t.head? == some '#' || t.head? == some ';' then st
    else if !st.inb && isBlockStart t then
      if n ≤ st.cf then { st with done := true }
      else { st with inb := true, entries := st.entries.set st.cf zeroFileHeader }
    else if st.inb then
      if t.contains '\x7d' then { st with cf := st.cf + 1, inb := false }
      else
        match splitEq t with
        | none => st
        | some (k, v) =>
          let fh0 := applyFileKV (st.entries.getD st.cf zeroFileHeader)
            (stripWS k) (cleanCfg v)
          { st with entries := st.entries.set st.cf fh0 }
    else st

def filePassGo (n : Nat) (ls : List String) (st : PState) : PState :=
  ls.foldl (fileLineStep n) st

def initPState (n : Nat) : PState :=
  ⟨0, false, false, List.replicate n zeroFileHeader⟩

/-- `load_image_config` from `config_file.c` on the manifest's lines:
returns the C result code, the parsed header (with `num_files` taken from
the `number_of_files` key) and the entry array — `none` models the NULL
`*files` pointer left when `number_of_files` is 0. -/
def load_image_config (lines : List String) :
    Nat × ImageWTYHeader × Option (List ImageWTYFileHeader) :=
  let g := globalPass lines
  if g.2 = 0 then (0, { g.1 with num_files := g.2 }, none)
  else (0, { g.1 with num_files := g.2 },
    some (filePassGo g.2 lines (initPState g.2)).entries)

/-- A C string read out of a byte buffer (`%s` stops at the first NUL). -/
def cString (l : List Nat) : List Nat := l.takeWhile (· ≠ 0)

def strbytes (l : List Nat) : String :=
  String.mk ((cString l).map Char.ofNat)

def toHexDigit (d : Nat) : Char :=
  if d < 10 then Char.ofNat (48 + d) else Char.ofNat (55 + d)

/-- `%08X` of a `uint32_t` value. -/
def toHex8 (n : Nat) : String :=
  String.mk ((List.range 8).map fun i => toHexDigit (n % M32 / 16 ^ (7 - i) % 16))

def uintLine (key : String) (v : Nat) : String :=
  key ++ "=0x" ++ toHex8 v ++ ";"

def strLine (key : String) (v : List Nat) : String :=
  key ++ "=\"" ++ strbytes v ++ "\";"

/-- The lines of one `file_N { ... }` block as `write_image_config` prints
them; the entry's `header_size` is written under the key
`file_header_size`. -/
def fileBlockLines (i : Nat) (fh : ImageWTYFileHeader) : List String :=
  [kFilePrefix ++ Nat.repr (i + 1) ++ kBlockOpen,
   uintLine kFilenameLength fh.filename_length,
   uintLine kFileHeaderSize fh.header_size,
   strLine kMaintype fh.maintype,
   strLine kSubtype fh.subtype,
   uintLine kUnknown0 fh.unknown0,
   strLine kFilename fh.filename,
   uintLine kStoredLength fh.stored_length,
   uintLine kPad1 fh.pad1,
   uintLine kOriginalLength fh.original_length,
   uintLine kPad2 fh.pad2,
   uintLine kOffset fh.offset,
   kBlockClose]

/-- `write_image_config` from `config_file.c` as the list of lines it
prints (the `fprintf` with a leading newline yields the empty line before
`[FILELIST]`); the block loop indexes `files[i]` for `i < num_files`. -/
def write_image_config (hdr : ImageWTYHeader) (files : List ImageWTYFileHeader)
    (num_files : Nat) : List String :=
  [kSecImageCfg, strLine kMagic hdr.magic,
   uintLine kHeaderVersion hdr.header_version,
   uintLine kHeaderSize hdr.header_size,
   uintLine kBaseRam hdr.base_ram,
   uintLine kFormatVersion hdr.format_version,
   uintLine kTotalImageSize hdr.total_image_size,
   uintLine kHeaderSizeAligned hdr.header_size_aligned,
   uintLine kFileHeaderLength hdr.file_header_length,
   uintLine kUsbProductId hdr.usb_product_id,
   uintLine kUsbVendorId hdr.usb_vendor_id,
   uintLine kHardwareId hdr.hardware_id,
   uintLine kFirmwareId hdr.firmware_id,
   uintLine kUnknownField1 hdr.unknown1,
   uintLine kUnknownField2 hdr.unknown2,
   uintLine kUnknownField3 hdr.unknown3,
   uintLine kNumberOfFiles num_files] ++
  (if num_files ≠ 0 then
    [kEmptyLine, kSecFilelist] ++
      ((List.range num_files).map fun i =>
        fileBlockLines i (files.getD i zeroFileHeader)).flatten
   else [])

/- ------------------------------------------------------------------
Checksum scan over a dump directory: `check_vfiles_common` in
`src/src/checksum.c`.  A directory is an association list from file name
to byte content; the scan iterates over the directory listing (the name
list), reading and possibly rewriting side-files in place.
------------------------------------------------------------------ -/

abbrev FS := List (String × List Nat)

def kVvbmeta : String := "Vvbmeta.fex"

def kVvbmetaSystem : String := "Vvbmeta_system.fex"

def kVvbmetaVendor : String := "Vvbmeta_vendor.fex"

def kDotFex : String := ".fex"

/-- `strstr` as a Boolean: does `pat` occur as a contiguous substring? -/
def hasSub (pat : List Char) : List Char → Bool
  | [] => pat.isEmpty
  | c :: rest => pat.isPrefixOf (c :: rest) || hasSub pat rest

/-- `name[0] == V && strstr(name, ".fex")`. -/
def isVfexName (n : String) : Bool :=
  n.toList.head? == some 'V' && hasSub kDotFex.toList n.toList

/-- The fixed exemption set of vbmeta side-file names. -/
def exemptName (n : String) : Bool :=
  n == kVvbmeta || n == kVvbmetaSystem || n == kVvbmetaVendor

def processedName (n : String) : Bool := isVfexName n && !exemptName n

/-- The sibling real file: the name with the leading `V` removed. -/
def realOf (n : String) : String := String.mk n.toList.tail

/-- `compute_checksum` on a file path: the sentinel 0 is returned when the
file cannot be opened (`checksum.c` lines 28-33). -/
def compute_checksum_file (fs : FS) (name : String) : Nat :=
  match List.lookup name fs with
  | none => 0
  | some content => compute_checksum content

/-- Overwrite the content of an existing directory entry (`fopen "wb"` +
`fwrite` on a name obtained from `readdir`). -/
def fsSet : FS → String → List Nat → FS
  | [], _, _ => []
  | (k, v) :: rest, nm, c =>
    if k = nm then (k, c) :: rest else (k, v) :: fsSet rest nm c

/-- One report line of `check_vfiles_common`. -/
inductive VEvent where
  | okE (name : String) (v : Nat)
  | failE (name : String) (expected actual : Nat)
  | fixE (name : String) (expected actual : Nat)
  | shortE (name : String)
  | cantOpenE (name : String)
deriving DecidableEq

/-- Processing of one directory entry by `check_vfiles_common`: filter by
name shape and exemption, read the stored 4-byte little-endian value,
compute the sibling's checksum, then report OK / report a mismatch /
rewrite the side-file depending on `update`. -/
def vstep (update : Bool) (fs : FS) (name : String) : FS × Option VEvent :=
  if !processedName name then (fs, none)
  else
    match List.lookup name fs with
    | none => (fs, some (.cantOpenE name))
    | some content =>
      match content.take 4 with
      | [b0, b1, b2, b3] =>
        if compute_checksum_file fs (realOf name) = word_le b0 b1 b2 b3 then
          (fs, some (.okE name (compute_checksum_file fs (realOf name))))
        else if update then
          (fsSet fs name (u32le4 (compute_checksum_file fs (realOf name))),
           some (.fixE name (word_le b0 b1 b2 b3)
             (compute_checksum_file fs (realOf name))))
        else
          (fs, some (.failE name (word_le b0 b1 b2 b3)
            (compute_checksum_file fs (realOf name))))
      | _ => (fs, some (.shortE name))

/-- The `readdir` loop of `check_vfiles_common` over a fixed name list,
threading the directory state. -/
def scanGo (update : Bool) : List String → FS → FS × List VEvent
  | [], fs => (fs, [])
  | n :: rest, fs =>
    match vstep update fs n with
    | (fs1, none) => scanGo update rest fs1
    | (fs1, some ev) =>
      let r := scanGo update rest fs1
      (r.1, ev :: r.2)

/-- `check_vfiles_common` from `checksum.c`: scan the directory listing. -/
def check_vfiles_common (fs : FS) (update : Bool) : FS × List VEvent :=
  scanGo update (fs.map Prod.fst) fs

def verify_vfiles_checksums (fs : FS) : FS × List VEvent :=
  check_vfiles_common fs false

def update_vfiles_if_needed (fs : FS) : FS × List VEvent :=
  check_vfiles_common fs true

/-- Payload lookup for repacking: each entry's referenced file must exist
in the (already checksum-repaired) dump directory. -/
def payloadsFor (fs : FS) (files : List ImageWTYFileHeader) :
    Option (List (List Nat)) :=
  files.mapM fun fh => List.lookup (strbytes fh.filename) fs

/-- `repack_image` from `img_repack.c` as a function of the manifest lines
and the dump directory: repair the checksum side-files, load the manifest,
and — only if loading succeeded AND the entry array is non-NULL — write
the container (`none` models the nonzero error return taken before any
output is produced). -/
def repack_image (cfg : List String) (fs : FS) : FS × Option (List Nat) :=
  let fs1 := (update_vfiles_if_needed fs).1
  match load_image_config cfg with
  | (0, hdr, some files) =>
    match payloadsFor fs1 files with
    | some ps => (fs1, some (repack_write hdr files ps))
    | none => (fs1, none)
  | _ => (fs1, none)

/- ------------------------------------------------------------------
Claim C3: manifest round trip.
------------------------------------------------------------------ -/

/-- Concrete header for the claim C3 evaluation. -/
def cfgH3 : ImageWTYHeader :=
  { magic := [73, 77, 65, 71, 69, 87, 84, 89]
    header_version := 768
    header_size := 96
    base_ram := 1073741824
    format_version := 4100
    total_image_size := 1336
    header_size_aligned := 1024
    file_header_length := 1024
    usb_product_id := 4660
    usb_vendor_id := 22136
    hardware_id := 256
    firmware_id := 257
    unknown1 := 1
    unknown2 := 2
    num_files := 1
    unknown3 := 3 }

/-- Concrete entry for the claim C3 evaluation; its `header_size` is the
nonzero value 0x400. -/
def cfgE3 : ImageWTYFileHeader :=
  { filename_length := 5
    header_size := 1024
    maintype := [67, 79, 77, 77, 79, 78]
    subtype := [66, 79, 79, 84]
    unknown0 := 3
    filename := [97, 46, 102, 101, 120]
    stored_length := 16
    pad1 := 7
    original_length := 5
    pad2 := 9
    offset := 1336 }

/-- Claim C3 is violated by the code: `write_image_config` emits the
per-entry header size under the key `file_header_size`, but
`load_image_config`'s per-entry table only reads the key `header_size`,
so parsing a rendered manifest returns the entry with `header_size = 0`
while every other field (and the whole global header) round-trips.  This
theorem evaluates both codecs at the failing input. -/
theorem claim_C3 :
    load_image_config (write_image_config cfgH3 [cfgE3] 1) =
      (0, cfgH3, some [{ cfgE3 with header_size := 0 }]) ∧
    cfgE3.header_size = 1024 := by decide

/- ------------------------------------------------------------------
Claim C9: manifest tolerance of missing and excess blocks.
------------------------------------------------------------------ -/

theorem getD_set_ne (l : List ImageWTYFileHeader) (i j : Nat)
    (v d : ImageWTYFileHeader) (h : i ≠ j) :
    (l.set i v).getD j d = l.getD j d := by
  rw [List.getD_eq_getElem?_getD, List.getD_eq_getElem?_getD,
    List.getElem?_set_ne h]

theorem getD_replicate (a : ImageWTYFileHeader) :
    ∀ n i : Nat, (List.replicate n a).getD i a = a := by
  intro n
  induction n with
  | zero => intro i; rfl
  | succ m ih =>
      intro i
      cases i with
      | zero => rfl
      | succ j => exact ih j

/-- A line that opens a `file_N` block when scanned outside a block. -/
def isBlockLine (line : String) : Bool :=
  let t := stripWS line.toList
  !(t.isEmpty || t.head? == some '#' || t.head? == some ';') && isBlockStart t

def countBlockStarts (lines : List String) : Nat :=
  (lines.filter isBlockLine).length

theorem fileLineStep_entries_length (n : Nat) (st : PState) (line : String) :
    (fileLineStep n st line).entries.length = st.entries.length := by
  by_cases hd : st.done = true
  · rw [fileLineStep, if_pos hd]
  · rw [fileLineStep, if_neg hd]
    by_cases hcm : (stripWS line.toList).isEmpty ||
        (stripWS line.toList).head? == some '#' ||
        (stripWS line.toList).head? == some ';'
    · rw [if_pos hcm]
    · rw [if_neg hcm]
      by_cases hbs : (!st.inb && isBlockStart (stripWS line.toList)) = true
      · rw [if_pos hbs]
        by_cases hcf : n ≤ st.cf
        · rw [if_pos hcf]
        · rw [if_neg hcf]
          simp [List.length_set]
      · rw [if_neg hbs]
        by_cases hin : st.inb = true
        · rw [if_pos hin]
          by_cases hcl : (stripWS line.toList).contains '\x7d' = true
          · rw [if_pos hcl]
          · rw [if_neg hcl]
            cases hsp : splitEq (stripWS line.toList) with
            | none => rfl
            | some kv => simp [List.length_set]
        · rw [if_neg hin]

theorem filePass_entries_length (n : Nat) (ls : List String) :
    ∀ st : PState, (filePassGo n ls st).entries.length = st.entries.length := by
  induction ls with
  | nil => intro st; rfl
  | cons l ls ih =>
      intro st
      show (filePassGo n ls (fileLineStep n st l)).entries.length = _
      rw [ih (fileLineStep n st l), fileLineStep_entries_length]

/-- Contributes 1 when the line opens a `file_N` block (as seen outside a block). -/
def blockBump (line : String) : Nat := if isBlockLine line then 1 else 0

/-- Contributes 1 when the parse state is inside an open block. -/
def inbBump (st : PState) : Nat := if st.inb then 1 else 0

theorem blockBump_eq_one (line : String) (h : isBlockLine line = true) :
    blockBump line = 1 := by
  unfold blockBump
  rw [h]
  rfl

theorem inbBump_eq_one (st : PState) (h : st.inb = true) : inbBump st = 1 := by
  unfold inbBump
  rw [h]
  rfl

theorem inbBump_eq_zero (st : PState) (h : st.inb = false) : inbBump st = 0 := by
  unfold inbBump
  rw [h]
  rfl

theorem fileLineStep_bound (n : Nat) (st : PState) (line : String) (j : Nat)
    (hj : st.cf + blockBump line + inbBump st ≤ j) :
    (fileLineStep n st line).entries.getD j zeroFileHeader =
      st.entries.getD j zeroFileHeader ∧
    (fileLineStep n st line).cf + inbBump (fileLineStep n st line) ≤
      st.cf + blockBump line + inbBump st := by
  by_cases hd : st.done = true
  · rw [fileLineStep, if_pos hd]
    exact ⟨rfl, by omega⟩
  · rw [fileLineStep, if_neg hd]
    by_cases hcm : (stripWS line.toList).isEmpty ||
        (stripWS line.toList).head? == some '#' ||
        (stripWS line.toList).head? == some ';'
    · rw [if_pos hcm]
      exact ⟨rfl, by omega⟩
    · rw [if_neg hcm]
      by_cases hbs : (!st.inb && isBlockStart (stripWS line.toList)) = true
      · rw [if_pos hbs]
        have hinb : st.inb = false := by
          cases hin : st.inb
          · rfl
          · rw [hin] at hbs
            simp at hbs
        have hibl : isBlockLine line = true := by
          rw [Bool.and_eq_true] at hbs
          show (!((stripWS line.toList).isEmpty ||
              (stripWS line.toList).head? == some '#' ||
              (stripWS line.toList).head? == some ';') &&
            isBlockStart (stripWS line.toList)) = true
          rw [hbs.2, Bool.and_true]
          cases hce : ((stripWS line.toList).isEmpty ||
              (stripWS line.toList).head? == some '#' ||
              (stripWS line.toList).head? == some ';')
          · rfl
          · exact absurd hce hcm
        have hB := blockBump_eq_one line hibl
        have hI := inbBump_eq_zero st hinb
        by_cases hcf : n ≤ st.cf
        · rw [if_pos hcf]
          refine ⟨rfl, ?_⟩
          show st.cf + inbBump st ≤ st.cf + blockBump line + inbBump st
          omega
        · rw [if_neg hcf]
          refine ⟨getD_set_ne _ _ _ _ _ (by omega), ?_⟩
          show st.cf + 1 ≤ st.cf + blockBump line + inbBump st
          omega
      · rw [if_neg hbs]
        by_cases hin : st.inb = true
        · rw [if_pos hin]
          have hI := inbBump_eq_one st hin
          by_cases hcl : (stripWS line.toList).contains '\x7d' = true
          · rw [if_pos hcl]
            refine ⟨rfl, ?_⟩
            show st.cf + 1 + 0 ≤ st.cf + blockBump line + inbBump st
            omega
          · rw [if_neg hcl]
            cases hsp : splitEq (stripWS line.toList) with
            | none =>
                refine ⟨rfl, ?_⟩
                show st.cf + inbBump st ≤ st.cf + blockBump line + inbBump st
                omega
            | some kv =>
                refine ⟨getD_set_ne _ _ _ _ _ (by omega), ?_⟩
                show st.cf + inbBump st ≤ st.cf + blockBump line + inbBump st
                omega
        · rw [if_neg hin]
          exact ⟨rfl, by omega⟩

theorem filePass_untouched (n : Nat) (ls : List String) :
    ∀ (st : PState) (j : Nat),
      st.cf + countBlockStarts ls + inbBump st ≤ j →
      (filePassGo n ls st).entries.getD j zeroFileHeader =
        st.entries.getD j zeroFileHeader := by
  induction ls with
  | nil => intro st j _; rfl
  | cons l ls ih =>
      intro st j hj
      have hcount : countBlockStarts (l :: ls) =
          blockBump l + countBlockStarts ls := by
        unfold countBlockStarts blockBump
        rw [List.filter_cons]
        cases hbl : isBlockLine l
        · rw [if_neg (by decide), if_neg (by decide)]
          omega
        · rw [if_pos rfl, if_pos rfl, List.length_cons]
          omega
      rw [hcount] at hj
      obtain ⟨hu, hb⟩ := fileLineStep_bound n st l j (by omega)
      show (filePassGo n ls (fileLineStep n st l)).entries.getD j zeroFileHeader = _
      rw [ih (fileLineStep n st l) j (by omega), hu]

theorem fileLineStep_stable (n : Nat) (st : PState) (line : String)
    (h : st.done = true ∨ (n ≤ st.cf ∧ st.inb = false)) :
    (fileLineStep n st line).entries = st.entries ∧
    ((fileLineStep n st line).done = true ∨
      (n ≤ (fileLineStep n st line).cf ∧ (fileLineStep n st line).inb = false)) := by
  by_cases hd : st.done = true
  · rw [fileLineStep, if_pos hd]
    exact ⟨rfl, Or.inl hd⟩
  · obtain ⟨hcf, hinb⟩ : n ≤ st.cf ∧ st.inb = false := by
      cases h with
      | inl hdone => exact absurd hdone hd
      | inr hok => exact hok
    rw [fileLineStep, if_neg hd]
    by_cases hcm : (stripWS line.toList).isEmpty ||
        (stripWS line.toList).head? == some '#' ||
        (stripWS line.toList).head? == some ';'
    · rw [if_pos hcm]
      exact ⟨rfl, Or.inr ⟨hcf, hinb⟩⟩
    · rw [if_neg hcm]
      by_cases hbs : (!st.inb && isBlockStart (stripWS line.toList)) = true
      · rw [if_pos hbs, if_pos hcf]
        exact ⟨rfl, Or.inl rfl⟩
      · rw [if_neg hbs]
        rw [if_neg (by rw [hinb]; exact Bool.false_ne_true)]
        exact ⟨rfl, Or.inr ⟨hcf, hinb⟩⟩

theorem filePass_entries_stable (n : Nat) (ls : List String) :
    ∀ st : PState,
      (st.done = true ∨ (n ≤ st.cf ∧ st.inb = false)) →
      (filePassGo n ls st).entries = st.entries := by
  induction ls with
  | nil => intro st _; rfl
  | cons l ls ih =>
      intro st h
      have hstep := fileLineStep_stable n st l h
      show (filePassGo n ls (fileLineStep n st l)).entries = _
      rw [ih (fileLineStep n st l) hstep.2, hstep.1]

theorem fileLineStep_inb_lt (n : Nat) (st : PState) (line : String)
    (h : st.inb = true → st.cf < n) :
    (fileLineStep n st line).inb = true → (fileLineStep n st line).cf < n := by
  by_cases hd : st.done = true
  · rw [fileLineStep, if_pos hd]
    exact h
  · rw [fileLineStep, if_neg hd]
    by_cases hcm : (stripWS line.toList).isEmpty ||
        (stripWS line.toList).head? == some '#' ||
        (stripWS line.toList).head? == some ';'
    · rw [if_pos hcm]
      exact h
    · rw [if_neg hcm]
      by_cases hbs : (!st.inb && isBlockStart (stripWS line.toList)) = true
      · rw [if_pos hbs]
        by_cases hcf : n ≤ st.cf
        · rw [if_pos hcf]
          exact h
        · rw [if_neg hcf]
          intro _
          show st.cf < n
          omega
      · rw [if_neg hbs]
        by_cases hin : st.inb = true
        · rw [if_pos hin]
          by_cases hcl : (stripWS line.toList).contains '\x7d' = true
          · rw [if_pos hcl]
            intro hfalse
            exact absurd hfalse (by simp)
          · rw [if_neg hcl]
            cases hsp : splitEq (stripWS line.toList) with
            | none => exact h
            | some kv => exact h
        · rw [if_neg hin]
          exact h

theorem filePass_inb_lt (n : Nat) (ls : List String) :
    ∀ st : PState, (st.inb = true → st.cf < n) →
      ((filePassGo n ls st).inb = true → (filePassGo n ls st).cf < n) := by
  induction ls with
  | nil => intro st h; exact h
  | cons l ls ih =>
      intro st h
      exact ih (fileLineStep n st l) (fileLineStep_inb_lt n st l h)

theorem filePass_append (n : Nat) (a b : List String) (st : PState) :
    filePassGo n (a ++ b) st = filePassGo n b (filePassGo n a st) := by
  unfold filePassGo
  rw [List.foldl_append]

/-- Claim C9: parsing a manifest whose `number_of_files` declares `n > 0`
yields exactly `n` allocated entries even when fewer `file_N` blocks are
present; every entry index not covered by a block keeps the all-zero
default; and lines after the `n`-th completed block never change the
entries (the loop breaks at the next block start). -/
theorem claim_C9 (lines : List String) (n : Nat)
    (hn : declaredNumFiles lines = n) (hpos : 0 < n) :
    (∃ hdr entries, load_image_config lines = (0, hdr, some entries) ∧
      entries.length = n ∧
      (∀ i : Nat, countBlockStarts lines ≤ i →
        entries.getD i zeroFileHeader = zeroFileHeader)) ∧
    (∀ extra : List String,
      n ≤ (filePassGo n lines (initPState n)).cf →
      (filePassGo n (lines ++ extra) (initPState n)).entries =
        (filePassGo n lines (initPState n)).entries) := by
  constructor
  · refine ⟨{ (globalPass lines).1 with num_files := (globalPass lines).2 },
      (filePassGo (globalPass lines).2 lines
        (initPState (globalPass lines).2)).entries, ?_, ?_, ?_⟩
    · unfold load_image_config
      rw [if_neg (by rw [show (globalPass lines).2 = n from hn]; omega)]
    · rw [filePass_entries_length]
      show (List.replicate (globalPass lines).2 zeroFileHeader).length = n
      rw [List.length_replicate]
      exact hn
    · intro i hi
      have hu := filePass_untouched (globalPass lines).2 lines
        (initPState (globalPass lines).2) i (by
          show 0 + countBlockStarts lines + 0 ≤ i
          omega)
      rw [hu]
      exact getD_replicate zeroFileHeader _ i
  · intro extra hcf
    rw [filePass_append]
    apply filePass_entries_stable
    right
    refine ⟨hcf, ?_⟩
    have hinv := filePass_inb_lt n lines (initPState n) (by
      intro hbad
      exact absurd hbad (by simp [initPState]))
    cases hib : (filePassGo n lines (initPState n)).inb
    · rfl
    · have hlt := hinv hib
      exact absurd hcf (by omega)

/-- Concrete manifest lines for the claim C9 witness: two declared files,
one block present, one stray key line afterwards. -/
def w9Lines : List String :=
  [uintLine kNumberOfFiles 2,
   kFilePrefix ++ Nat.repr 1 ++ kBlockOpen,
   uintLine kOffset 16,
   kBlockClose]

/-- Witness for claim C9 at the concrete manifest. -/
theorem claim_C9_witness :
    (∃ hdr entries, load_image_config w9Lines = (0, hdr, some entries) ∧
      entries.length = 2 ∧
      (∀ i : Nat, countBlockStarts w9Lines ≤ i →
        entries.getD i zeroFileHeader = zeroFileHeader)) ∧
    (∀ extra : List String,
      2 ≤ (filePassGo 2 w9Lines (initPState 2)).cf →
      (filePassGo 2 (w9Lines ++ extra) (initPState 2)).entries =
        (filePassGo 2 w9Lines (initPState 2)).entries) :=
  claim_C9 w9Lines 2 (by decide) (by decide)

/- ------------------------------------------------------------------
Claim C10: repacking a zero-file manifest.
------------------------------------------------------------------ -/

/-- Claim C10: a manifest declaring zero files loads "successfully"
(result code 0) with a NULL entry array, and `repack_image` nevertheless
fails before writing any output, because its guard treats the NULL array
as a fatal load failure. -/
theorem claim_C10 (cfg : List String) (fs : FS)
    (h0 : declaredNumFiles cfg = 0) :
    load_image_config cfg =
      (0, { (globalPass cfg).1 with num_files := 0 }, none) ∧
    (repack_image cfg fs).2 = none := by
  have h0' : (globalPass cfg).2 = 0 := h0
  have hl : load_image_config cfg =
      (0, { (globalPass cfg).1 with num_files := 0 }, none) := by
    simp only [load_image_config]
    rw [h0']
    rw [if_pos rfl]
  refine ⟨hl, ?_⟩
  have hr : repack_image cfg fs = ((update_vfiles_if_needed fs).1, none) := by
    unfold repack_image
    rw [hl]
  rw [hr]

/-- Manifest line declaring zero files, for the claim C10 witness. -/
def w10Lines : List String := [uintLine kNumberOfFiles 0]

/-- Witness for claim C10 at the concrete zero-file manifest. -/
theorem claim_C10_witness :
    declaredNumFiles w10Lines = 0 ∧
    (load_image_config w10Lines =
      (0, { (globalPass w10Lines).1 with num_files := 0 }, none) ∧
    (repack_image w10Lines []).2 = none) :=
  ⟨by decide, claim_C10 w10Lines [] (by decide)⟩

/- ------------------------------------------------------------------
Claim C6: side-files with a missing sibling.
------------------------------------------------------------------ -/

/-- Reduction of `vstep` once the name filter, the side-file lookup and
its first four stored bytes are known. -/
theorem vstep_eq (u : Bool) (fs : FS) (n : String) (content : List Nat)
    (b0 b1 b2 b3 : Nat)
    (hproc : processedName n = true)
    (hlook : List.lookup n fs = some content)
    (htake : content.take 4 = [b0, b1, b2, b3]) :
    vstep u fs n =
      (if compute_checksum_file fs (realOf n) = word_le b0 b1 b2 b3 then
        (fs, some (VEvent.okE n (compute_checksum_file fs (realOf n))))
      else if u then
        (fsSet fs n (u32le4 (compute_checksum_file fs (realOf n))),
          some (VEvent.fixE n (word_le b0 b1 b2 b3)
            (compute_checksum_file fs (realOf n))))
      else
        (fs, some (VEvent.failE n (word_le b0 b1 b2 b3)
          (compute_checksum_file fs (realOf n))))) := by
  unfold vstep
  rw [hproc]
  rw [if_neg (by decide)]
  rw [hlook]
  show (match content.take 4 with
    | [c0, c1, c2, c3] =>
      if compute_checksum_file fs (realOf n) = word_le c0 c1 c2 c3 then
        (fs, some (VEvent.okE n (compute_checksum_file fs (realOf n))))
      else if u then
        (fsSet fs n (u32le4 (compute_checksum_file fs (realOf n))),
          some (VEvent.fixE n (word_le c0 c1 c2 c3)
            (compute_checksum_file fs (realOf n))))
      else
        (fs, some (VEvent.failE n (word_le c0 c1 c2 c3)
          (compute_checksum_file fs (realOf n))))
    | _ => (fs, some (VEvent.shortE n))) = _
  rw [htake]

/-- The scan recursion once the head entry produced a report line. -/
theorem scanGo_cons_some (u : Bool) (n : String) (rest : List String)
    (fs fs1 : FS) (ev : VEvent)
    (h : vstep u fs n = (fs1, some ev)) :
    scanGo u (n :: rest) fs =
      ((scanGo u rest fs1).1, ev :: (scanGo u rest fs1).2) := by
  show (match vstep u fs n with
    | (fs2, none) => scanGo u rest fs2
    | (fs2, some e) =>
      let r := scanGo u rest fs2
      (r.1, e :: r.2)) = _
  rw [h]

/-- The scan recursion once the head entry was filtered out. -/
theorem scanGo_cons_none (u : Bool) (n : String) (rest : List String)
    (fs fs1 : FS)
    (h : vstep u fs n = (fs1, none)) :
    scanGo u (n :: rest) fs = scanGo u rest fs1 := by
  show (match vstep u fs n with
    | (fs2, none) => scanGo u rest fs2
    | (fs2, some e) =>
      let r := scanGo u rest fs2
      (r.1, e :: r.2)) = _
  rw [h]

/-- Claim C6 (amended): when a processed side-file's sibling real file is
missing, `compute_checksum` returns the sentinel 0, the entry is reported
and the scan continues with the remaining entries in both modes; the
side-file is left unchanged in verify mode, but in repair mode it is left
unchanged only when its stored 4 bytes already decode to 0 — otherwise
they are overwritten with four zero bytes. -/
theorem claim_C6 (update : Bool) (fs : FS) (name : String)
    (rest : List String) (content : List Nat) (b0 b1 b2 b3 : Nat)
    (hproc : processedName name = true)
    (hlook : List.lookup name fs = some content)
    (htake : content.take 4 = [b0, b1, b2, b3])
    (hmiss : List.lookup (realOf name) fs = none) :
    compute_checksum_file fs (realOf name) = 0 ∧
    ∃ ev fs1,
      vstep update fs name = (fs1, some ev) ∧
      scanGo update (name :: rest) fs =
        ((scanGo update rest fs1).1, ev :: (scanGo update rest fs1).2) ∧
      (update = false → fs1 = fs) ∧
      (update = true → word_le b0 b1 b2 b3 = 0 → fs1 = fs) ∧
      (update = true → word_le b0 b1 b2 b3 ≠ 0 →
        fs1 = fsSet fs name (u32le4 0)) := by
  have hc0 : compute_checksum_file fs (realOf name) = 0 := by
    unfold compute_checksum_file
    rw [hmiss]
  refine ⟨hc0, ?_⟩
  have hv := vstep_eq update fs name content b0 b1 b2 b3 hproc hlook htake
  rw [hc0] at hv
  by_cases hw : word_le b0 b1 b2 b3 = 0
  · rw [if_pos hw.symm] at hv
    exact ⟨VEvent.okE name 0, fs, hv,
      scanGo_cons_some update name rest fs fs _ hv,
      fun _ => rfl, fun _ _ => rfl, fun _ hne => absurd hw hne⟩
  · rw [if_neg (fun hh => hw hh.symm)] at hv
    cases update
    · rw [if_neg (by decide)] at hv
      exact ⟨_, fs, hv, scanGo_cons_some false name rest fs fs _ hv,
        fun _ => rfl, fun h => absurd h (by decide),
        fun h => absurd h (by decide)⟩
    · rw [if_pos rfl] at hv
      exact ⟨_, _, hv, scanGo_cons_some true name rest fs _ _ hv,
        fun h => absurd h (by decide), fun _ hw0 => absurd hw0 hw,
        fun _ _ => rfl⟩

def kVaFex : String := "Va.fex"

def kVVaFex : String := "VVa.fex"

def kAFex : String := "a.fex"

/-- One side-file whose sibling real file is absent. -/
def cfs6 : FS := [(kVaFex, [1, 0, 0, 0])]

/-- Claim C6 counterexample: in repair mode a side-file whose sibling is
missing is NOT left unchanged — its stored bytes are overwritten with the
four zero bytes of the sentinel checksum. -/
theorem claim_C6_counterexample :
    processedName kVaFex = true ∧
    List.lookup (realOf kVaFex) cfs6 = none ∧
    (update_vfiles_if_needed cfs6).1 = [(kVaFex, [0, 0, 0, 0])] ∧
    (update_vfiles_if_needed cfs6).1 ≠ cfs6 ∧
    (update_vfiles_if_needed cfs6).2 = [VEvent.fixE kVaFex 1 0] := by
  decide

/-- Witness for claim C6 at the concrete one-entry directory. -/
theorem claim_C6_witness :
    compute_checksum_file cfs6 (realOf kVaFex) = 0 ∧
    ∃ ev fs1,
      vstep true cfs6 kVaFex = (fs1, some ev) ∧
      scanGo true (kVaFex :: []) cfs6 =
        ((scanGo true [] fs1).1, ev :: (scanGo true [] fs1).2) ∧
      (true = false → fs1 = cfs6) ∧
      (true = true → word_le 1 0 0 0 = 0 → fs1 = cfs6) ∧
      (true = true → word_le 1 0 0 0 ≠ 0 →
        fs1 = fsSet cfs6 kVaFex (u32le4 0)) :=
  claim_C6 true cfs6 kVaFex [] [1, 0, 0, 0] 1 0 0 0 (by decide) (by decide)
    (by decide) (by decide)

/- ------------------------------------------------------------------
Claim C8: checksum repair idempotence.
------------------------------------------------------------------ -/

/-- Chained side-files break repair idempotence. -/
def cfs8 : FS := [(kVVaFex, [7, 7, 7, 7]), (kVaFex, [9, 9, 9, 9]), (kAFex, [1])]

/-- Claim C8 counterexample: with a chained side-file (`VVa.fex` stores
the checksum of `Va.fex`, itself a side-file that gets rewritten later in
the same scan), the second repair run still reports a fix for `VVa.fex`
and rewrites it again, so the second run is NOT all-OK. -/
theorem claim_C8_counterexample :
    processedName kVVaFex = true ∧
    realOf kVVaFex = kVaFex ∧
    (update_vfiles_if_needed (update_vfiles_if_needed cfs8).1).2 =
      [VEvent.fixE kVVaFex 151587081 1, VEvent.okE kVaFex 1] ∧
    (update_vfiles_if_needed (update_vfiles_if_needed cfs8).1).1 ≠
      (update_vfiles_if_needed cfs8).1 := by
  decide

theorem lookup_cons_eq (k n : String) (v : List Nat) (rest : FS)
    (h : (n == k) = true) :
    List.lookup n ((k, v) :: rest) = some v := by
  show (match n == k with
    | true => some v
    | false => List.lookup n rest) = some v
  rw [h]

theorem lookup_cons_ne (k n : String) (v : List Nat) (rest : FS)
    (h : (n == k) = false) :
    List.lookup n ((k, v) :: rest) = List.lookup n rest := by
  show (match n == k with
    | true => some v
    | false => List.lookup n rest) = List.lookup n rest
  rw [h]

theorem lookup_of_mem_keys (fs : FS) (m : String)
    (h : m ∈ fs.map Prod.fst) : ∃ c, List.lookup m fs = some c := by
  induction fs with
  | nil => cases h
  | cons p rest ih =>
      obtain ⟨k, v⟩ := p
      by_cases hmk : (m == k) = true
      · exact ⟨v, lookup_cons_eq k m v rest hmk⟩
      · have hmk' : (m == k) = false := by
          cases hE : m == k
          · rfl
          · exact absurd hE hmk
        have hm : m ∈ rest.map Prod.fst := by
          rcases List.mem_cons.mp h with h1 | h2
          · exact absurd (beq_iff_eq.mpr h1) hmk
          · exact h2
        obtain ⟨c, hc⟩ := ih hm
        exact ⟨c, (lookup_cons_ne k m v rest hmk').trans hc⟩

theorem fsSet_keys (fs : FS) (n : String) (c : List Nat) :
    (fsSet fs n c).map Prod.fst = fs.map Prod.fst := by
  induction fs with
  | nil => rfl
  | cons p rest ih =>
      obtain ⟨k, v⟩ := p
      show (if k = n then (k, c) :: rest
        else (k, v) :: fsSet rest n c).map Prod.fst = _
      by_cases hk : k = n
      · rw [if_pos hk]
        rfl
      · rw [if_neg hk]
        show k :: (fsSet rest n c).map Prod.fst = k :: rest.map Prod.fst
        rw [ih]

theorem lookup_fsSet_ne (m n : String) (c : List Nat) (fs : FS) (h : m ≠ n) :
    List.lookup m (fsSet fs n c) = List.lookup m fs := by
  induction fs with
  | nil => rfl
  | cons p rest ih =>
      obtain ⟨k, v⟩ := p
      show List.lookup m (if k = n then (k, c) :: rest
        else (k, v) :: fsSet rest n c) = List.lookup m ((k, v) :: rest)
      by_cases hk : k = n
      · rw [if_pos hk]
        have hmk : (m == k) = false :=
          beq_eq_false_iff_ne.mpr (by rw [hk]; exact h)
        rw [lookup_cons_ne k m c rest hmk, lookup_cons_ne k m v rest hmk]
      · rw [if_neg hk]
        by_cases hmk : (m == k) = true
        · rw [lookup_cons_eq k m v (fsSet rest n c) hmk,
            lookup_cons_eq k m v rest hmk]
        · have hmk' : (m == k) = false := by
            cases hE : m == k
            · rfl
            · exact absurd hE hmk
          rw [lookup_cons_ne k m v (fsSet rest n c) hmk',
            lookup_cons_ne k m v rest hmk']
          exact ih

theorem lookup_fsSet_self (fs : FS) (n : String) (c c0 : List Nat)
    (h : List.lookup n fs = some c0) :
    List.lookup n (fsSet fs n c) = some c := by
  induction fs with
  | nil =>
      have h' : (none : Option (List Nat)) = some c0 := h
      cases h'
  | cons p rest ih =>
      obtain ⟨k, v⟩ := p
      show List.lookup n (if k = n then (k, c) :: rest
        else (k, v) :: fsSet rest n c) = some c
      by_cases hk : k = n
      · rw [if_pos hk]
        exact lookup_cons_eq k n c rest (beq_iff_eq.mpr hk.symm)
      · rw [if_neg hk]
        have hnk : (n == k) = false :=
          beq_eq_false_iff_ne.mpr (fun hE => hk hE.symm)
        rw [lookup_cons_ne k n v (fsSet rest n c) hnk]
        apply ih
        rw [lookup_cons_ne k n v rest hnk] at h
        exact h

theorem compute_checksum_lt (bytes : List Nat) : compute_checksum bytes < M32 := by
  cases bytes with
  | nil => decide
  | cons b rest => exact chunkSum_lt (b :: rest) (by simp) 0

theorem compute_checksum_file_lt (fs : FS) (x : String) :
    compute_checksum_file fs x < M32 := by
  unfold compute_checksum_file
  cases hq : List.lookup x fs with
  | none => decide
  | some content => exact compute_checksum_lt content

theorem take4_shape (content : List Nat) :
    (∃ b0 b1 b2 b3, content.take 4 = [b0, b1, b2, b3]) ∨ content.length < 4 := by
  rcases content with _ | ⟨a, _ | ⟨b, _ | ⟨c, _ | ⟨d, t⟩⟩⟩⟩
  · right; decide
  · right; simp
  · right; simp
  · right; simp
  · left; exact ⟨a, b, c, d, rfl⟩

theorem vstep_unprocessed (u : Bool) (fs : FS) (m : String)
    (h : processedName m = false) : vstep u fs m = (fs, none) := by
  unfold vstep
  rw [h]
  rw [if_pos (by decide)]

theorem vstep_short (u : Bool) (fs : FS) (n : String) (content : List Nat)
    (hproc : processedName n = true)
    (hlook : List.lookup n fs = some content)
    (hlen : content.length < 4) :
    vstep u fs n = (fs, some (VEvent.shortE n)) := by
  unfold vstep
  rw [hproc]
  rw [if_neg (by decide)]
  rw [hlook]
  show (match content.take 4 with
    | [c0, c1, c2, c3] =>
      if compute_checksum_file fs (realOf n) = word_le c0 c1 c2 c3 then
        (fs, some (VEvent.okE n (compute_checksum_file fs (realOf n))))
      else if u then
        (fsSet fs n (u32le4 (compute_checksum_file fs (realOf n))),
          some (VEvent.fixE n (word_le c0 c1 c2 c3)
            (compute_checksum_file fs (realOf n))))
      else
        (fs, some (VEvent.failE n (word_le c0 c1 c2 c3)
          (compute_checksum_file fs (realOf n))))
    | _ => (fs, some (VEvent.shortE n))) = (fs, some (VEvent.shortE n))
  rcases content with _ | ⟨a, _ | ⟨b, _ | ⟨c, _ | ⟨d, t⟩⟩⟩⟩
  · rfl
  · rfl
  · rfl
  · rfl
  · exfalso
    simp only [List.length_cons] at hlen
    omega

/-- A side-file whose stored 4 bytes already agree with its sibling's
checksum (vacuous for filtered-out names and unreadable side-files). -/
def settled (fs : FS) (n : String) : Prop :=
  ∀ content b0 b1 b2 b3, processedName n = true →
    List.lookup n fs = some content → content.take 4 = [b0, b1, b2, b3] →
    compute_checksum_file fs (realOf n) = word_le b0 b1 b2 b3

/-- No processed side-file names a sibling that is itself a processed
side-file (rules out chains such as `VVa.fex` next to `Va.fex`). -/
def chainFree (n : String) : Prop :=
  processedName n = true → processedName (realOf n) = false

/-- Report lines that record no mismatch and no write. -/
def okOrShort : VEvent → Prop
  | VEvent.okE _ _ => True
  | VEvent.shortE _ => True
  | _ => False

theorem compute_checksum_file_congr (fs1 fs2 : FS) (x : String)
    (h : List.lookup x fs1 = List.lookup x fs2) :
    compute_checksum_file fs1 x = compute_checksum_file fs2 x := by
  unfold compute_checksum_file
  rw [h]

theorem vstep_fs_cases (u : Bool) (fs : FS) (m : String) :
    (vstep u fs m).1 = fs ∨
    (processedName m = true ∧ ∃ content b0 b1 b2 b3,
      List.lookup m fs = some content ∧ content.take 4 = [b0, b1, b2, b3] ∧
      compute_checksum_file fs (realOf m) ≠ word_le b0 b1 b2 b3 ∧
      (vstep u fs m).1 =
        fsSet fs m (u32le4 (compute_checksum_file fs (realOf m)))) := by
  by_cases hp : processedName m = true
  · cases hq : List.lookup m fs with
    | none =>
        left
        have hv : vstep u fs m = (fs, some (VEvent.cantOpenE m)) := by
          unfold vstep
          rw [hp]
          rw [if_neg (by decide)]
          rw [hq]
        rw [hv]
    | some content =>
        rcases take4_shape content with ⟨b0, b1, b2, b3, h4⟩ | hshort
        · have hv := vstep_eq u fs m content b0 b1 b2 b3 hp hq h4
          by_cases hm : compute_checksum_file fs (realOf m) = word_le b0 b1 b2 b3
          · left
            rw [hv, if_pos hm]
          · cases u
            · left
              rw [hv, if_neg hm, if_neg (by decide)]
            · right
              exact ⟨hp, content, b0, b1, b2, b3, rfl, h4, hm, by
                rw [hv, if_neg hm, if_pos rfl]⟩
        · left
          rw [vstep_short u fs m content hp hq hshort]
  · left
    have hp' : processedName m = false := by
      cases hE : processedName m
      · rfl
      · exact absurd hE hp
    rw [vstep_unprocessed u fs m hp']

theorem settled_vstep_other (u : Bool) (fs : FS) (n m : String)
    (hs : settled fs n) (hnc : chainFree n) (hmc : chainFree m) :
    settled (vstep u fs m).1 n := by
  rcases vstep_fs_cases u fs m with heq |
    ⟨hpm, content, b0, b1, b2, b3, hq, h4, hne, heq⟩
  · rw [heq]
    exact hs
  · rw [heq]
    intro cn c0 c1 c2 c3 hp hcn h4n
    by_cases hnm : n = m
    · subst hnm
      exact absurd (hs content b0 b1 b2 b3 hp hq h4) hne
    · rw [lookup_fsSet_ne n m
        (u32le4 (compute_checksum_file fs (realOf m))) fs hnm] at hcn
      have hrn : realOf n ≠ m := by
        intro hE
        have h1 := hnc hp
        rw [hE] at h1
        rw [hpm] at h1
        exact absurd h1 (by decide)
      have hl2 : compute_checksum_file
          (fsSet fs m (u32le4 (compute_checksum_file fs (realOf m))))
          (realOf n) = compute_checksum_file fs (realOf n) :=
        compute_checksum_file_congr _ fs (realOf n)
          (lookup_fsSet_ne (realOf n) m
            (u32le4 (compute_checksum_file fs (realOf m))) fs hrn)
      rw [hl2]
      exact hs cn c0 c1 c2 c3 hp hcn h4n

theorem vstep_settled_self (fs : FS) (n : String) (hnc : chainFree n) :
    settled (vstep true fs n).1 n := by
  by_cases hp : processedName n = true
  · cases hq : List.lookup n fs with
    | none =>
        have hv : vstep true fs n = (fs, some (VEvent.cantOpenE n)) := by
          unfold vstep
          rw [hp]
          rw [if_neg (by decide)]
          rw [hq]
        rw [hv]
        show settled fs n
        intro cn c0 c1 c2 c3 hp2 hcn h4n
        rw [hq] at hcn
        cases hcn
    | some content =>
        rcases take4_shape content with ⟨b0, b1, b2, b3, h4⟩ | hshort
        · have hv := vstep_eq true fs n content b0 b1 b2 b3 hp hq h4
          by_cases hm : compute_checksum_file fs (realOf n) = word_le b0 b1 b2 b3
          · rw [hv, if_pos hm]
            show settled fs n
            intro cn c0 c1 c2 c3 hp2 hcn h4n
            rw [hq] at hcn
            injection hcn with hceq
            subst hceq
            rw [h4n] at h4
            simp only [List.cons.injEq, and_true] at h4
            obtain ⟨e0, e1, e2, e3⟩ := h4
            subst e0
            subst e1
            subst e2
            subst e3
            exact hm
          · rw [hv, if_neg hm, if_pos rfl]
            show settled
              (fsSet fs n (u32le4 (compute_checksum_file fs (realOf n)))) n
            intro cn c0 c1 c2 c3 hp2 hcn h4n
            have hrn : realOf n ≠ n := by
              intro hE
              have h1 := hnc hp
              rw [hE] at h1
              rw [hp] at h1
              exact absurd h1 (by decide)
            rw [lookup_fsSet_self fs n
              (u32le4 (compute_checksum_file fs (realOf n))) content hq] at hcn
            injection hcn with hceq
            have hsib : compute_checksum_file
                (fsSet fs n (u32le4 (compute_checksum_file fs (realOf n))))
                (realOf n) = compute_checksum_file fs (realOf n) :=
              compute_checksum_file_congr _ fs (realOf n)
                (lookup_fsSet_ne (realOf n) n
                  (u32le4 (compute_checksum_file fs (realOf n))) fs hrn)
            rw [hsib]
            rw [← hceq] at h4n
            have h4n' : u32le4 (compute_checksum_file fs (realOf n)) =
                [c0, c1, c2, c3] := h4n
            unfold u32le4 at h4n'
            simp only [List.cons.injEq, and_true] at h4n'
            obtain ⟨e0, e1, e2, e3⟩ := h4n'
            subst e0
            subst e1
            subst e2
            subst e3
            rw [word_le_u32le4]
            rw [Nat.mod_eq_of_lt (compute_checksum_file_lt fs (realOf n))]
        · rw [vstep_short true fs n content hp hq hshort]
          show settled fs n
          intro cn c0 c1 c2 c3 hp2 hcn h4n
          rw [hq] at hcn
          injection hcn with hceq
          subst hceq
          exfalso
          have hL := congrArg List.length h4n
          rw [List.length_take] at hL
          simp at hL
          omega
  · have hp' : processedName n = false := by
      cases hE : processedName n
      · rfl
      · exact absurd hE hp
    rw [vstep_unprocessed true fs n hp']
    show settled fs n
    intro cn c0 c1 c2 c3 hp2 hcn h4n
    exact absurd hp2 hp

theorem vstep_at_settled (fs : FS) (n : String)
    (hs : settled fs n) (hk : ∃ c, List.lookup n fs = some c) :
    (vstep true fs n).1 = fs ∧
    ∀ ev, (vstep true fs n).2 = some ev → okOrShort ev := by
  obtain ⟨content, hq⟩ := hk
  by_cases hp : processedName n = true
  · rcases take4_shape content with ⟨b0, b1, b2, b3, h4⟩ | hshort
    · have hm := hs content b0 b1 b2 b3 hp hq h4
      have hv := vstep_eq true fs n content b0 b1 b2 b3 hp hq h4
      rw [if_pos hm] at hv
      rw [hv]
      refine ⟨rfl, ?_⟩
      intro ev hev
      have hev' : some (VEvent.okE n (compute_checksum_file fs (realOf n))) =
          some ev := hev
      injection hev' with h1
      rw [← h1]
      exact True.intro
    · rw [vstep_short true fs n content hp hq hshort]
      refine ⟨rfl, ?_⟩
      intro ev hev
      have hev' : some (VEvent.shortE n) = some ev := hev
      injection hev' with h1
      rw [← h1]
      exact True.intro
  · have hp' : processedName n = false := by
      cases hE : processedName n
      · rfl
      · exact absurd hE hp
    rw [vstep_unprocessed true fs n hp']
    refine ⟨rfl, ?_⟩
    intro ev hev
    have hev' : (none : Option VEvent) = some ev := hev
    cases hev'

theorem scanGo_all_settled (ns : List String) (fs : FS)
    (h : ∀ n ∈ ns, settled fs n ∧ ∃ c, List.lookup n fs = some c) :
    (scanGo true ns fs).1 = fs ∧
    ∀ ev ∈ (scanGo true ns fs).2, okOrShort ev := by
  induction ns generalizing fs with
  | nil =>
      refine ⟨rfl, ?_⟩
      intro ev hev
      cases hev
  | cons n rest ih =>
      have hn := h n (List.mem_cons_self n rest)
      have hstep := vstep_at_settled fs n hn.1 hn.2
      have hrest := ih fs (fun m hm => h m (List.mem_cons_of_mem n hm))
      rcases hv : vstep true fs n with ⟨fs1, o⟩
      have hfs1 : fs1 = fs := by
        have h1 := hstep.1
        rw [hv] at h1
        exact h1
      subst hfs1
      cases o with
      | none =>
          rw [scanGo_cons_none true n rest fs1 fs1 hv]
          exact hrest
      | some ev =>
          rw [scanGo_cons_some true n rest fs1 fs1 ev hv]
          refine ⟨hrest.1, ?_⟩
          intro e he
          rcases List.mem_cons.mp he with he1 | he2
          · rw [he1]
            exact hstep.2 ev (by rw [hv])
          · exact hrest.2 e he2

theorem scanGo_preserves_settled (ns : List String) :
    ∀ fs n, settled fs n → chainFree n → (∀ m ∈ ns, chainFree m) →
      settled (scanGo true ns fs).1 n := by
  induction ns with
  | nil =>
      intro fs n hs _ _
      exact hs
  | cons m rest ih =>
      intro fs n hs hn hms
      have hs1' := settled_vstep_other true fs n m hs hn
        (hms m (List.mem_cons_self m rest))
      rcases hv : vstep true fs m with ⟨fs1, o⟩
      have hs1 : settled fs1 n := by
        rw [hv] at hs1'
        exact hs1'
      have hrs : ∀ x ∈ rest, chainFree x :=
        fun x hx => hms x (List.mem_cons_of_mem m hx)
      cases o with
      | none =>
          rw [scanGo_cons_none true m rest fs fs1 hv]
          exact ih fs1 n hs1 hn hrs
      | some ev =>
          rw [scanGo_cons_some true m rest fs fs1 ev hv]
          exact ih fs1 n hs1 hn hrs

theorem scanGo_settles (ns : List String) :
    ∀ fs, (∀ m ∈ ns, chainFree m) →
      ∀ n ∈ ns, settled (scanGo true ns fs).1 n := by
  induction ns with
  | nil =>
      intro fs _ n hn
      cases hn
  | cons m rest ih =>
      intro fs hc n hn
      have hself' := vstep_settled_self fs m (hc m (List.mem_cons_self m rest))
      rcases hv : vstep true fs m with ⟨fs1, o⟩
      have hself : settled fs1 m := by
        rw [hv] at hself'
        exact hself'
      have hcr : ∀ x ∈ rest, chainFree x :=
        fun x hx => hc x (List.mem_cons_of_mem m hx)
      rcases List.mem_cons.mp hn with he | hm2
      · subst he
        cases o with
        | none =>
            rw [scanGo_cons_none true n rest fs fs1 hv]
            exact scanGo_preserves_settled rest fs1 n hself
              (hc n (List.mem_cons_self n rest)) hcr
        | some ev =>
            rw [scanGo_cons_some true n rest fs fs1 ev hv]
            exact scanGo_preserves_settled rest fs1 n hself
              (hc n (List.mem_cons_self n rest)) hcr
      · cases o with
        | none =>
            rw [scanGo_cons_none true m rest fs fs1 hv]
            exact ih fs1 hcr n hm2
        | some ev =>
            rw [scanGo_cons_some true m rest fs fs1 ev hv]
            exact ih fs1 hcr n hm2

theorem vstep_keys (u : Bool) (fs : FS) (m : String) :
    (vstep u fs m).1.map Prod.fst = fs.map Prod.fst := by
  rcases vstep_fs_cases u fs m with heq |
    ⟨hpm, content, b0, b1, b2, b3, hq, h4, hne, heq⟩
  · rw [heq]
  · rw [heq, fsSet_keys]

theorem scanGo_keys (ns : List String) : ∀ fs : FS,
    (scanGo true ns fs).1.map Prod.fst = fs.map Prod.fst := by
  induction ns with
  | nil =>
      intro fs
      rfl
  | cons m rest ih =>
      intro fs
      rcases hv : vstep true fs m with ⟨fs1, o⟩
      have hk : fs1.map Prod.fst = fs.map Prod.fst := by
        have h1 := vstep_keys true fs m
        rw [hv] at h1
        exact h1
      cases o with
      | none =>
          rw [scanGo_cons_none true m rest fs fs1 hv, ih fs1, hk]
      | some ev =>
          rw [scanGo_cons_some true m rest fs fs1 ev hv]
          show (scanGo true rest fs1).1.map Prod.fst = _
          rw [ih fs1, hk]

/-- Claim C8 (amended): repair idempotence holds for directories with no
chained side-file names — when no processed `V*.fex` entry has a sibling
that is itself a processed side-file, a second repair run writes nothing
(the directory is a fixpoint) and every report line of the second run is
either an OK line or a short-read skip. -/
theorem claim_C8 (fs : FS)
    (hchain : ∀ p ∈ fs, processedName p.1 = true →
      processedName (realOf p.1) = false) :
    (update_vfiles_if_needed (update_vfiles_if_needed fs).1).1 =
      (update_vfiles_if_needed fs).1 ∧
    ∀ ev ∈ (update_vfiles_if_needed (update_vfiles_if_needed fs).1).2,
      okOrShort ev := by
  have hcn : ∀ m ∈ fs.map Prod.fst, chainFree m := by
    intro m hm
    rcases List.mem_map.mp hm with ⟨p, hp, he⟩
    rw [← he]
    exact hchain p hp
  have hset : ∀ n ∈ fs.map Prod.fst, settled (update_vfiles_if_needed fs).1 n :=
    fun n hn => scanGo_settles (fs.map Prod.fst) fs hcn n hn
  have hkeys : (update_vfiles_if_needed fs).1.map Prod.fst = fs.map Prod.fst :=
    scanGo_keys (fs.map Prod.fst) fs
  have hprep : ∀ n ∈ (update_vfiles_if_needed fs).1.map Prod.fst,
      settled (update_vfiles_if_needed fs).1 n ∧
      ∃ c, List.lookup n (update_vfiles_if_needed fs).1 = some c := by
    intro n hn
    refine ⟨hset n (by rw [← hkeys]; exact hn), ?_⟩
    exact lookup_of_mem_keys (update_vfiles_if_needed fs).1 n hn
  exact scanGo_all_settled ((update_vfiles_if_needed fs).1.map Prod.fst)
    (update_vfiles_if_needed fs).1 hprep

/-- A chain-free directory: one side-file and its real sibling. -/
def cfs8w : FS := [(kVaFex, [9, 9, 9, 9]), (kAFex, [1])]

/-- Witness for claim C8 at the concrete chain-free directory. -/
theorem claim_C8_witness :
    (update_vfiles_if_needed (update_vfiles_if_needed cfs8w).1).1 =
      (update_vfiles_if_needed cfs8w).1 ∧
    ∀ ev ∈ (update_vfiles_if_needed (update_vfiles_if_needed cfs8w).1).2,
      okOrShort ev :=
  claim_C8 cfs8w (by decide)

end ImagewtyTool
